import Mathlib

/-!
Verification development for the `tools` repository's graph-dictionary merger.

The Python sources under `src/dictionary-merger/` are shallowly embedded here:
Python dicts become association lists preserving insertion order, Python sets
become first-occurrence/last-occurrence deduplicated lists (the claims below
only compare them as sets), `copy.deepcopy` is the identity in this pure model,
exceptions and non-terminating loops are modelled by `Option`-valued functions
returning `none`, and in-place mutation of an argument is modelled by state
passing (the function returns the final value of the mutated argument).
-/

set_option maxRecDepth 4000

namespace Tools

/-- Property values are opaque to every merger (`§6` of the spec: the engine
performs no type-aware merging), so they are embedded as plain strings. -/
abbrev Val := String

/-- A Python `properties` dict: insertion-ordered association list. -/
abbrev PropMap := List (String × Val)

/-- An entity of the wire shape in `§6`: `name`, `children`, `properties`.
`name` and `properties` are `Option` because the Python dicts may lack the
keys (`entity.get('name', ...)` / `'properties' not in merged`); `children`
is a plain list, matching `entity.get('children', [])`. -/
structure Entity where
  name : Option String
  children : List String
  properties : Option PropMap
deriving Repr, DecidableEq

/-- A transition: `source`, `target`, optional `properties`. -/
structure Transition where
  source : String
  target : String
  properties : Option PropMap
deriving Repr, DecidableEq

/-- A graph dictionary: `entities`, `transitions`, `roots`. -/
structure Graph where
  entities : List (String × Entity)
  transitions : List (String × Transition)
  roots : List String
deriving Repr, DecidableEq

/-! ### Python dict primitives on association lists -/

/-- `d[k]` / `d.get(k)`: first binding of `k` (dicts have unique keys). -/
def dlookup {β : Type} : List (String × β) → String → Option β
  | [], _ => none
  | (k', v) :: rest, k => if k' = k then some v else dlookup rest k

/-- `k in d`. -/
def dmem {β : Type} (d : List (String × β)) (k : String) : Bool :=
  (dlookup d k).isSome

/-- `d[k] = v`: replace the binding in place if present, else append. -/
def dinsert {β : Type} : List (String × β) → String → β → List (String × β)
  | [], k, v => [(k, v)]
  | (k', v') :: rest, k, v =>
      if k' = k then (k, v) :: rest else (k', v') :: dinsert rest k v

/-- `d.update(e)`: fold `dinsert` over `e` in order. -/
def dupdate {β : Type} (d e : List (String × β)) : List (String × β) :=
  e.foldl (fun acc kv => dinsert acc kv.1 kv.2) d

/-- `list(d.keys())`. -/
def dkeys {β : Type} (d : List (String × β)) : List String := d.map Prod.fst

/-! ### Lemmas about the dict primitives -/

theorem dlookup_dinsert_self {β : Type} (d : List (String × β)) (k : String) (v : β) :
    dlookup (dinsert d k v) k = some v := by
  induction d with
  | nil => simp [dinsert, dlookup]
  | cons hd tl ih =>
    obtain ⟨k', v'⟩ := hd
    by_cases h : k' = k
    · simp [dinsert, dlookup, h]
    · simp [dinsert, dlookup, h, ih]

theorem dlookup_dinsert_ne {β : Type} (d : List (String × β)) (k k' : String) (v : β)
    (h : k ≠ k') : dlookup (dinsert d k v) k' = dlookup d k' := by
  induction d with
  | nil => simp [dinsert, dlookup, h]
  | cons hd tl ih =>
    obtain ⟨k₀, v₀⟩ := hd
    by_cases h₀ : k₀ = k
    · subst h₀
      simp [dinsert, dlookup, h]
    · simp [dinsert, dlookup, h₀, ih]

theorem dmem_dinsert {β : Type} (d : List (String × β)) (k k' : String) (v : β) :
    dmem (dinsert d k v) k' = (dmem d k' || (k = k')) := by
  by_cases h : k = k'
  · subst h
    simp [dmem, dlookup_dinsert_self]
  · simp [dmem, dlookup_dinsert_ne d k k' v h, h]

theorem dmem_of_dmem_dinsert {β : Type} {d : List (String × β)} {k k' : String} {v : β}
    (h : dmem d k' = true) : dmem (dinsert d k v) k' = true := by
  simp [dmem_dinsert, h]

theorem dkeys_dinsert_of_dmem {β : Type} {d : List (String × β)} {k : String} (v : β)
    (h : dmem d k = true) : dkeys (dinsert d k v) = dkeys d := by
  induction d with
  | nil => simp [dmem, dlookup] at h
  | cons hd tl ih =>
    obtain ⟨k', v'⟩ := hd
    by_cases hk : k' = k
    · simp [dinsert, hk, dkeys]
    · simp [dmem, dlookup, hk] at h
      simp [dinsert, hk, dkeys] at ih ⊢
      exact ih h

theorem dlookup_eq_none_of_not_dmem {β : Type} {d : List (String × β)} {k : String}
    (h : dmem d k = false) : dlookup d k = none := by
  simp [dmem] at h
  exact Option.eq_none_iff_forall_not_mem.mpr (fun v hv => by simp [h] at hv)

theorem dmem_iff_mem_dkeys {β : Type} (d : List (String × β)) (k : String) :
    dmem d k = true ↔ k ∈ dkeys d := by
  induction d with
  | nil => simp [dmem, dlookup, dkeys]
  | cons hd tl ih =>
    obtain ⟨k', v'⟩ := hd
    by_cases hk : k' = k
    · subst hk
      simp [dmem, dlookup, dkeys]
    · simp [dmem, dlookup, hk, dkeys, Ne.symm hk] at ih ⊢
      exact ih

theorem dlookup_eq_none_of_not_mem_dkeys {β : Type} {d : List (String × β)} {k : String}
    (h : k ∉ dkeys d) : dlookup d k = none := by
  have : dmem d k = false := by
    by_contra hc
    exact h ((dmem_iff_mem_dkeys d k).mp (by simpa using hc))
  exact dlookup_eq_none_of_not_dmem this

theorem dlookup_dupdate {β : Type} (d e : List (String × β)) (k : String)
    (he : (dkeys e).Nodup) :
    dlookup (dupdate d e) k = (dlookup e k).orElse (fun _ => dlookup d k) := by
  induction e generalizing d with
  | nil => simp [dupdate, dlookup]
  | cons hd tl ih =>
    obtain ⟨k₀, v₀⟩ := hd
    simp only [dkeys, List.map_cons, List.nodup_cons] at he
    obtain ⟨hk₀, htl⟩ := he
    simp only [dupdate, List.foldl_cons] at *
    by_cases h : k₀ = k
    · subst h
      have htlk : dlookup tl k₀ = none :=
        dlookup_eq_none_of_not_mem_dkeys (by simpa [dkeys] using hk₀)
      rw [ih (dinsert d k₀ v₀) htl]
      simp [htlk, dlookup, dlookup_dinsert_self]
    · rw [ih (dinsert d k₀ v₀) htl]
      by_cases hmem : dlookup tl k = none
      · simp [hmem, dlookup, h, dlookup_dinsert_ne d k₀ k v₀ h]
      · obtain ⟨v, hv⟩ := Option.ne_none_iff_exists'.mp hmem
        simp [hv, dlookup, h]

theorem dlookup_mem {β : Type} {d : List (String × β)} {k : String} {v : β}
    (h : dlookup d k = some v) : (k, v) ∈ d := by
  induction d with
  | nil => simp [dlookup] at h
  | cons hd tl ih =>
    obtain ⟨k', v'⟩ := hd
    by_cases hk : k' = k
    · subst hk
      simp [dlookup] at h
      simp [h]
    · simp [dlookup, hk] at h
      simp [ih h]

theorem dlookup_of_nodup_mem {β : Type} {d : List (String × β)} {k : String} {v : β}
    (hd : (dkeys d).Nodup) (h : (k, v) ∈ d) : dlookup d k = some v := by
  induction d with
  | nil => simp at h
  | cons hd₀ tl ih =>
    obtain ⟨k', v'⟩ := hd₀
    simp only [dkeys, List.map_cons, List.nodup_cons] at hd
    rcases List.mem_cons.mp h with heq | htl
    · cases heq
      simp [dlookup]
    · have hkne : k' ≠ k := by
        intro hkk
        subst hkk
        exact hd.1 (List.mem_map.mpr ⟨(k', v), htl, rfl⟩)
      simp [dlookup, hkne]
      exact ih hd.2 htl

/-! ### Embedding of `dict_merger_optimized_v3.py` (`GraphMerger`) -/

/-- Python truthiness used for `root_id or entity_id` and similar: `None` and
the empty string are falsy. -/
def strOr (r : Option String) (d : String) : String :=
  match r with
  | none => d
  | some s => if s = "" then d else s

/-- `.lower()` on a string's characters. -/
def lowerChars (l : List Char) : List Char := l.map Char.toLower

/-- `.strip()`: drop leading and trailing whitespace. -/
def stripChars (l : List Char) : List Char :=
  ((l.dropWhile Char.isWhitespace).reverse.dropWhile Char.isWhitespace).reverse

/-- `GraphMerger.normalize_entity_name`:
`str(entity.get('name', '')).lower().strip()`, implemented over the string's
character list. -/
def normalizeEntityName (e : Entity) : String :=
  String.mk (stripChars (lowerChars (e.name.getD "").data))

/-- `GraphMerger.entities_match`: equality of normalized names. -/
def entitiesMatch (p s : Entity) : Bool :=
  normalizeEntityName p == normalizeEntityName s

/-- The frozen `EntityPath` dataclass of `dict_merger_optimized_v3.py`. -/
structure EntityPath where
  entityId : String
  name : String
  fullPath : String
  level : Nat
  parentId : Option String
  rootId : String
deriving Repr, DecidableEq

/-- The parts of `MergeContext` that `build_graph_context` fills and later code
reads (`children_map` is built but never read, `path_mappings` never used;
`processed_entities` and `entity_mappings` are threaded through `MergeState`
below). -/
structure MergeContext where
  entityPaths : List (String × EntityPath)
  pathToId : List (String × String)
deriving Repr, DecidableEq

/-- The shape of the `for child_id in entity.get('children', [])` loop of
`process_entity`: run the step `f` for each child in order, aborting on a
non-returning step. -/
def runKids (f : String → MergeContext → Option MergeContext) :
    List String → MergeContext → Option MergeContext
  | [], ctx => some ctx
  | c :: rest, ctx =>
    match f c ctx with
    | none => none
    | some ctx' => runKids f rest ctx'

/-- `process_entity` inside `GraphMerger.build_graph_context`: depth-first
descent over `children` (children present in `graph['entities']` are recursed
into at `level + 1`). The Python recursion carries no visited set, so a cyclic
`children` relation recurses forever; `fuel` decreases by one per recursion
depth and `none` models that non-termination (a `RecursionError`). -/
def processEntity (g : Graph) : Nat → String → String → Option String → Nat →
    Option String → MergeContext → Option MergeContext
  | 0, _, _, _, _, _, _ => none
  | fuel + 1, entityId, parentPath, parentId, level, rootId, ctx =>
    match dlookup g.entities entityId with
    | none => some ctx
    | some entity =>
      let name := normalizeEntityName entity
      let fullPath := if parentPath = "" then name else parentPath ++ "/" ++ name
      let root := strOr rootId entityId
      let ep : EntityPath :=
        { entityId := entityId, name := name, fullPath := fullPath,
          level := level, parentId := parentId, rootId := root }
      let ctx' : MergeContext :=
        { entityPaths := dinsert ctx.entityPaths entityId ep,
          pathToId := dinsert ctx.pathToId fullPath entityId }
      runKids (fun c ctx₀ =>
          if dmem g.entities c then
            processEntity g fuel c fullPath (some entityId) (level + 1) (some root) ctx₀
          else some ctx₀)
        entity.children ctx'

/-- The `for root_id in graph['roots']: process_entity(root_id)` loop of
`GraphMerger.build_graph_context`. -/
def buildRoots (g : Graph) (fuel : Nat) : List String → MergeContext → Option MergeContext
  | [], ctx => some ctx
  | r :: rs, ctx =>
    match processEntity g fuel r "" none 0 none ctx with
    | none => none
    | some ctx' => buildRoots g fuel rs ctx'

/-- `GraphMerger.build_graph_context` on a fresh (cleared) context. -/
def buildGraphContext (g : Graph) (fuel : Nat) : Option MergeContext :=
  buildRoots g fuel g.roots { entityPaths := [], pathToId := [] }

/-- `GraphMerger.merge_entity_properties`: deep-copy the primary, default its
`properties` to `{}` and `update` with the secondary's, set `children` to the
set union of the two `children` lists, and fill a missing `name` from the
secondary. -/
def mergeEntityProperties (primary secondary : Entity) : Entity :=
  let props : PropMap :=
    dupdate (primary.properties.getD []) (secondary.properties.getD [])
  let children := List.dedup (primary.children ++ secondary.children)
  let name :=
    match primary.name with
    | some n => some n
    | none => secondary.name
  { name := name, children := children, properties := some props }

/-- `find_matching_entity` (the closure inside `GraphMerger.merge_graphs`):
tier 1 exact path lookup in the primary `path_to_id`; tier 2 scan of primary
entity paths comparing `primary_path.parent_id` with the secondary parent's
`parent_id` plus a normalized-name match; tier 3 scan comparing
`primary_path.root_id` with the secondary entry's `root_id` plus a name match.
`if parent_id:` / `if root_id:` use Python truthiness (empty string falsy). -/
def findMatchingEntity (pg : Graph) (ctxP ctxS : MergeContext)
    (entityId : String) (entity : Entity) : Option String :=
  let tier12 : Option String :=
    match dlookup ctxS.entityPaths entityId with
    | none => none
    | some ep =>
      match dlookup ctxP.pathToId ep.fullPath with
      | some pid => some pid
      | none =>
        match ep.parentId with
        | none => none
        | some parentId =>
          if parentId = "" then none
          else
            match dlookup ctxS.entityPaths parentId with
            | none => none
            | some parentPath =>
              (ctxP.entityPaths.find? (fun pp =>
                pp.2.parentId == parentPath.parentId &&
                (match dlookup pg.entities pp.1 with
                 | some pe => entitiesMatch pe entity
                 | none => false))).map Prod.fst
  match tier12 with
  | some pid => some pid
  | none =>
    let entityName := normalizeEntityName entity
    match (dlookup ctxS.entityPaths entityId).map EntityPath.rootId with
    | none => none
    | some rootId =>
      if rootId = "" then none
      else
        (ctxP.entityPaths.find? (fun pp =>
          pp.2.rootId == rootId && pp.2.name == entityName)).map Prod.fst

/-- The mutable working state of `GraphMerger.merge_graphs`: the merged
`entities` dict, `secondary_context.entity_mappings`, and
`secondary_context.processed_entities`. -/
structure MergeState where
  entities : List (String × Entity)
  mappings : List (String × String)
  processed : List String
deriving Repr, DecidableEq

/-- One iteration body of the `for entity_id, entity in
secondary_graph['entities'].items()` loop of `GraphMerger.merge_graphs`
(without the `processed_entities` bookkeeping): on a truthy match
(`if matching_id and matching_id in merged['entities']`) rebind the matched
key to `merge_entity_properties(existing, entity)` and record the ID mapping;
otherwise add the secondary entity under its own id, overwriting any existing
binding of that id. -/
def secStep (pg : Graph) (ctxP ctxS : MergeContext) (st : MergeState)
    (id : String) (ent : Entity) : MergeState :=
  match findMatchingEntity pg ctxP ctxS id ent with
  | some mid =>
    match dlookup st.entities mid with
    | some cur =>
      if mid = "" then
        { st with entities := dinsert st.entities id ent }
      else
        { st with
          entities := dinsert st.entities mid (mergeEntityProperties cur ent),
          mappings := dinsert st.mappings id mid }
    | none => { st with entities := dinsert st.entities id ent }
  | none => { st with entities := dinsert st.entities id ent }

/-- The secondary-entity loop of `GraphMerger.merge_graphs`: skip
already-processed ids, apply `secStep`, and mark the id processed. -/
def processSecondaryEntities (pg : Graph) (ctxP ctxS : MergeContext) :
    List (String × Entity) → MergeState → MergeState
  | [], st => st
  | (id, ent) :: rest, st =>
    if id ∈ st.processed then
      processSecondaryEntities pg ctxP ctxS rest st
    else
      let st' := secStep pg ctxP ctxS st id ent
      processSecondaryEntities pg ctxP ctxS rest
        { st' with processed := id :: st'.processed }

/-- `entity_mappings.get(x, x)`. -/
def mapId (mappings : List (String × String)) (x : String) : String :=
  (dlookup mappings x).getD x

/-- The `# Update children references` pass of `GraphMerger.merge_graphs`:
every child id is mapped through the ID map, dropped unless the mapped id is a
key of the merged entities, and the resulting list is deduplicated
(`list(set(updated_children))`). -/
def updateChildrenRefs (mappings : List (String × String))
    (entities : List (String × Entity)) : List (String × Entity) :=
  entities.map (fun p =>
    let newKids := List.dedup (p.2.children.filterMap (fun c =>
      let m := mapId mappings c
      if dmem entities m then some m else none))
    (p.1, { p.2 with children := newKids }))

/-- The `# Process roots` pass: `set(primary_graph['roots'])` plus every
mapped secondary root that is a key of the merged entities. -/
def mergeRoots (mappings : List (String × String)) (entities : List (String × Entity))
    (primaryRoots secondaryRoots : List String) : List String :=
  secondaryRoots.foldl (fun acc r =>
    let m := mapId mappings r
    if dmem entities m && !(acc.contains m) then acc ++ [m] else acc)
    (List.dedup primaryRoots)

/-- `get_transition_signature`: both endpoints mapped through the ID map and
joined with the marker string. -/
def transitionSignature (mappings : List (String × String)) (source target : String) : String :=
  mapId mappings source ++ "=>" ++ mapId mappings target

/-- The `# Process primary transitions` loop: copy each primary transition
verbatim and record its signature in `transition_map`. -/
def addPrimaryTransitions (mappings : List (String × String)) :
    List (String × Transition) → List (String × Transition) × List (String × String) →
    List (String × Transition) × List (String × String)
  | [], acc => acc
  | (tid, t) :: rest, (mt, tmap) =>
    addPrimaryTransitions mappings rest
      (dinsert mt tid t, dinsert tmap (transitionSignature mappings t.source t.target) tid)

/-- The `while new_trans_id in merged['transitions']` loop. The loop body
recomputes `f"{trans_id}_{len(merged['transitions'])}"`, whose value does not
change between iterations, so the loop either exits after at most one
re-assignment or spins forever (`none`). -/
def freshTransId (tid : String) (taken : List String) : Option String :=
  if taken.contains tid then
    let cand := tid ++ "_" ++ toString taken.length
    if taken.contains cand then none else some cand
  else some tid

/-- One iteration body of the `# Process secondary transitions` loop: a
transition whose signature is already in `transition_map` has its properties
merged into the recorded transition (a `KeyError` — modelled `none` — if that
transition is absent or lacks `properties`); otherwise, when both mapped
endpoints are merged entity keys, it is inserted under a fresh id with mapped
endpoints and its signature is recorded; otherwise it is skipped. -/
def transStep (mappings : List (String × String)) (entities : List (String × Entity))
    (mt : List (String × Transition)) (tmap : List (String × String))
    (tid : String) (t : Transition) :
    Option (List (String × Transition) × List (String × String)) :=
  match dlookup tmap (transitionSignature mappings t.source t.target) with
  | some eid =>
    match dlookup mt eid with
    | none => none
    | some et =>
      match et.properties with
      | none => none
      | some ps =>
        some (dinsert mt eid { et with properties := some (dupdate ps (t.properties.getD [])) },
              tmap)
  | none =>
    if dmem entities (mapId mappings t.source) && dmem entities (mapId mappings t.target) then
      match freshTransId tid (dkeys mt) with
      | none => none
      | some nid =>
        some (dinsert mt nid { source := mapId mappings t.source,
                               target := mapId mappings t.target,
                               properties := some (t.properties.getD []) },
              dinsert tmap (transitionSignature mappings t.source t.target) nid)
    else
      some (mt, tmap)

/-- The `# Process secondary transitions` loop of `GraphMerger.merge_graphs`. -/
def processSecondaryTransitions (mappings : List (String × String))
    (entities : List (String × Entity)) :
    List (String × Transition) → List (String × Transition) → List (String × String) →
    Option (List (String × Transition))
  | [], mt, _ => some mt
  | (tid, t) :: rest, mt, tmap =>
    match transStep mappings entities mt tmap tid t with
    | none => none
    | some (mt', tmap') => processSecondaryTransitions mappings entities rest mt' tmap'

/-- The `# First, add all primary entities` loop. -/
def initMergedEntities (pg : Graph) : List (String × Entity) :=
  pg.entities.foldl (fun acc p => dinsert acc p.1 p.2) []

/-- `GraphMerger.merge_graphs`, returning the merged graph together with the
final `entity_mappings` (the ID map). `none` models the cases where the Python
call never returns normally: unbounded recursion of `build_graph_context` on a
cyclic `children` relation, the non-terminating fresh-transition-id loop, or a
`KeyError` while merging transition properties. -/
def mergeGraphsCore (pg sg : Graph) : Option (Graph × List (String × String)) :=
  match buildGraphContext pg (pg.entities.length + 1),
        buildGraphContext sg (sg.entities.length + 1) with
  | some ctxP, some ctxS =>
    let st := processSecondaryEntities pg ctxP ctxS sg.entities
      { entities := initMergedEntities pg, mappings := [], processed := [] }
    let entities2 := updateChildrenRefs st.mappings st.entities
    let roots := mergeRoots st.mappings entities2 pg.roots sg.roots
    match addPrimaryTransitions st.mappings pg.transitions ([], []) with
    | (mt, tmap) =>
      match processSecondaryTransitions st.mappings entities2 sg.transitions mt tmap with
      | none => none
      | some mt' =>
        some ({ entities := entities2, transitions := mt', roots := roots }, st.mappings)
  | _, _ => none

/-- `GraphMerger.merge_graphs` as seen by the caller. -/
def mergeGraphs (pg sg : Graph) : Option Graph :=
  (mergeGraphsCore pg sg).map Prod.fst

/-! ### Embedding of `build_path` from `dict_merger_optimized_v3_runtime_reduced.py` -/

/-- The fields of the runtime-reduced variant's `EntityInfo` that its
`build_path` reads: the display `name` and the `parent_id` found in the first
pass of `_build_entity_info`. -/
structure RRInfo where
  name : String
  parentId : Option String
deriving Repr, DecidableEq

/-- Outcome of a `build_path` call: `fuelOut` models a recursion that never
returns, `keyErr` a `KeyError` on `self.entity_info[entity_id]`, and
`ok path level` a normal return. -/
inductive RRResult where
  | fuelOut : RRResult
  | keyErr : RRResult
  | ok : List String → Nat → RRResult
deriving Repr, DecidableEq

/-- `build_path` of `GraphMerger._build_entity_info` in the runtime-reduced
variant: an entity already in `visited` is skipped with a logged warning and
yields `([], 0)`; otherwise the entity is added to `visited` and its parent
chain is followed recursively. -/
def buildPathRR (info : List (String × RRInfo)) : Nat → List String → String → RRResult
  | 0, _, _ => .fuelOut
  | fuel + 1, visited, id =>
    if id ∈ visited then .ok [] 0
    else
      match dlookup info id with
      | none => .keyErr
      | some i =>
        match i.parentId with
        | none => .ok [i.name] 0
        | some p =>
          match buildPathRR info fuel (id :: visited) p with
          | .fuelOut => .fuelOut
          | .keyErr => .keyErr
          | .ok pp pl => .ok (pp ++ [i.name]) (pl + 1)

/-- Number of indexed entities not yet visited: an upper bound on the
remaining recursion depth of `buildPathRR`. -/
def rrMeasure (info : List (String × RRInfo)) (visited : List String) : Nat :=
  ((dkeys info).filter (fun x => !(visited.contains x))).length

/-! ### Embedding of `dict_merger_v2.py` (`merge_graph_dicts`) -/

/-- The in-place normalization `merge_graph_dicts` applies to entities of its
*secondary argument*: a missing `properties` key is coerced to `{}`. -/
def coerceEntityProps (e : Entity) : Entity :=
  { e with properties := some (e.properties.getD []) }

/-- The same in-place normalization for transitions of the secondary. -/
def coerceTransProps (t : Transition) : Transition :=
  { t with properties := some (t.properties.getD []) }

/-- The `for ent_id, ent_data in graph['entities'].items()` loop of
`get_entity_path`, abstracted over the recursive call `f`: try each entity
claiming `id` as a child, in order, until one yields a non-`None` path. -/
def searchParentsWith (f : String → Option (Option (List String))) (id : String) :
    List (String × Entity) → Option (Option (List String))
  | [] => some none
  | (pid, pe) :: rest =>
    if id ∈ pe.children then
      match f pid with
      | none => none
      | some none => searchParentsWith f id rest
      | some (some path) => some (some (path ++ [id]))
    else searchParentsWith f id rest

/-- `get_entity_path` of `merge_graph_dicts`: a root maps to `[entity_id]`;
otherwise scan all entities for one whose `children` contain the id and
recurse. The recursion carries no visited set, so a cyclic `children` relation
never returns; `fuel` decreases per recursion depth and the outer `none`
models that. The inner `Option` is Python's `None` result. -/
def getEntityPath (g : Graph) : Nat → String → Option (Option (List String))
  | 0, _ => none
  | fuel + 1, id =>
    if id ∈ g.roots then some (some [id])
    else searchParentsWith (fun pid => getEntityPath g fuel pid) id g.entities

/-- `get_all_paths`: one `get_entity_path` per entity id, keeping the ids with
a truthy (non-`None`, non-empty) path. -/
def getAllPaths (g : Graph) (fuel : Nat) :
    List (String × Entity) → List (String × List String) →
    Option (List (String × List String))
  | [], acc => some acc
  | (id, _) :: rest, acc =>
    match getEntityPath g fuel id with
    | none => none
    | some none => getAllPaths g fuel rest acc
    | some (some p) =>
      if p.isEmpty then getAllPaths g fuel rest acc
      else getAllPaths g fuel rest (dinsert acc id p)

/-- The comparison inside `find_equivalent_path`: same length and equal
components at indices `0 .. len - 2` (the last component is never compared). -/
def pathsPrefixMatch (path ep : List String) : Bool :=
  path.length == ep.length &&
  (List.range (path.length - 1)).all (fun i => path.getD i "" == ep.getD i "")

/-- `find_equivalent_path`: first primary id whose path prefix-matches. -/
def findEquivalentPath (ep : List String) (paths : List (String × List String)) :
    Option String :=
  (paths.find? (fun p => pathsPrefixMatch p.2 ep)).map Prod.fst

/-- `merge_properties` of `dict_merger_v2.py`: deep-copy the secondary
properties and `update` with the primary's — primary wins on conflicts. -/
def mergePropertiesV2 (primaryProps secondaryProps : PropMap) : PropMap :=
  dupdate secondaryProps primaryProps

/-- Working state of the secondary-entity loop of `merge_graph_dicts`:
the merged entities and roots, the *mutated secondary entities* (the loop
coerces missing `properties` in place on its input), and `processed_entities`. -/
structure V2State where
  ments : List (String × Entity)
  mroots : List String
  sgents : List (String × Entity)
  processed : List String
deriving Repr, DecidableEq

/-- The `# Process secondary graph` loop of `merge_graph_dicts`. Each secondary
entity is first coerced in place; an id already processed gets its properties
merged (primary wins) into the merged entity; an id with no truthy secondary
path is skipped; an id with an equivalent primary path is silently dropped;
otherwise the entity is added and recorded (and appended to `roots` if it is a
secondary root). -/
def v2EntityLoop (sgRoots : List String)
    (primaryPaths secondaryPaths : List (String × List String)) :
    List (String × Entity) → V2State → V2State
  | [], st => st
  | (id, e) :: rest, st =>
    let ec := coerceEntityProps e
    let st₁ := { st with sgents := dinsert st.sgents id ec }
    if id ∈ st₁.processed then
      let st₂ :=
        match dlookup st₁.ments id with
        | some cur =>
          let newProps := some (mergePropertiesV2 (cur.properties.getD []) (ec.properties.getD []))
          { st₁ with ments := dinsert st₁.ments id { cur with properties := newProps } }
        | none => st₁
      v2EntityLoop sgRoots primaryPaths secondaryPaths rest st₂
    else
      match dlookup secondaryPaths id with
      | none => v2EntityLoop sgRoots primaryPaths secondaryPaths rest st₁
      | some ep =>
        if ep.isEmpty then v2EntityLoop sgRoots primaryPaths secondaryPaths rest st₁
        else
          match findEquivalentPath ep primaryPaths with
          | some _ => v2EntityLoop sgRoots primaryPaths secondaryPaths rest st₁
          | none =>
            let st₂ :=
              { st₁ with
                ments := dinsert st₁.ments id ec,
                mroots := if id ∈ sgRoots then st₁.mroots ++ [id] else st₁.mroots,
                processed := id :: st₁.processed }
            v2EntityLoop sgRoots primaryPaths secondaryPaths rest st₂

/-- The `# Process transitions` loop of `merge_graph_dicts`: coerce each
secondary transition in place, and when both raw endpoints are merged entity
keys, insert it under the (possibly non-terminating) fresh-id scheme. State is
(merged transitions, mutated secondary transitions). -/
def v2TransLoop (ments : List (String × Entity)) :
    List (String × Transition) →
    List (String × Transition) × List (String × Transition) →
    Option (List (String × Transition) × List (String × Transition))
  | [], st => some st
  | (tid, t) :: rest, (mtrans, sgtrans) =>
    let tc := coerceTransProps t
    let sgtrans' := dinsert sgtrans tid tc
    if dmem ments t.source && dmem ments t.target then
      match freshTransId tid (dkeys mtrans) with
      | none => none
      | some nid =>
        v2TransLoop ments rest
          (dinsert mtrans nid
            { source := t.source, target := t.target,
              properties := some (tc.properties.getD []) }, sgtrans')
    else
      v2TransLoop ments rest (mtrans, sgtrans')

/-- `merge_graph_dicts(primary_graph, secondary_graph)`. The result pairs the
merged graph with the *final value of the secondary argument*, whose entities
and transitions the Python function mutates in place (property coercion); the
primary argument is only ever read, never written, so it needs no threading.
`none` models the non-returning cases (cyclic `get_entity_path` recursion or
the non-terminating fresh-transition-id loop). -/
def mergeGraphDicts (pg sg : Graph) : Option (Graph × Graph) :=
  let merged0 : Graph :=
    { entities := pg.entities.map (fun p => (p.1, coerceEntityProps p.2)),
      transitions := pg.transitions.map (fun p => (p.1, coerceTransProps p.2)),
      roots := pg.roots }
  match getAllPaths pg (pg.entities.length + 1) pg.entities [] with
  | none => none
  | some primaryPaths =>
    match getAllPaths sg (sg.entities.length + 1) sg.entities [] with
    | none => none
    | some secondaryPaths =>
      let st := v2EntityLoop sg.roots primaryPaths secondaryPaths sg.entities
        { ments := merged0.entities, mroots := merged0.roots,
          sgents := sg.entities, processed := dkeys merged0.entities }
      match v2TransLoop st.ments sg.transitions (merged0.transitions, sg.transitions) with
      | none => none
      | some (mtrans, sgtrans) =>
        some ({ entities := st.ments, transitions := mtrans, roots := st.mroots },
              { entities := st.sgents, transitions := sgtrans, roots := sg.roots })

/-- The total effect of `merge_graph_dicts` on its secondary argument:
every entity's and transition's missing `properties` is coerced to `{}`. -/
def coerceGraphProps (g : Graph) : Graph :=
  { entities := g.entities.map (fun p => (p.1, coerceEntityProps p.2)),
    transitions := g.transitions.map (fun p => (p.1, coerceTransProps p.2)),
    roots := g.roots }

/-! ### Concrete graphs used by witnesses and counterexamples -/

/-- The empty graph dictionary. -/
def emptyGraph : Graph := { entities := [], transitions := [], roots := [] }

/-- The primary test graph of `dict_merger_optimized_v3.py` (`generate_test_graphs`),
also the concrete scenario of spec §8. -/
def specPrimary : Graph :=
  { entities :=
      [("dept1", { name := some "Engineering", children := ["team1", "team2"],
                   properties := some [("location", "NYC")] }),
       ("team1", { name := some "Frontend", children := ["emp1"],
                   properties := some [("tech", "React")] }),
       ("team2", { name := some "Backend", children := ["emp2"],
                   properties := some [("tech", "Python")] }),
       ("emp1", { name := some "John", children := [],
                  properties := some [("role", "developer")] }),
       ("emp2", { name := some "Alice", children := [],
                  properties := some [("role", "engineer")] })],
    transitions :=
      [("t1", { source := "emp1", target := "emp2",
                properties := some [("type", "collaboration")] })],
    roots := ["dept1"] }

/-- The secondary test graph of `dict_merger_optimized_v3.py`. -/
def specSecondary : Graph :=
  { entities :=
      [("dept2", { name := some "Engineering", children := ["team3"],
                   properties := some [("location", "SF")] }),
       ("team3", { name := some "Frontend", children := ["emp3"],
                   properties := some [("tech", "Vue")] }),
       ("emp3", { name := some "Sarah", children := [],
                  properties := some [("role", "developer")] })],
    transitions :=
      [("t2", { source := "team3", target := "emp3",
                properties := some [("type", "management")] })],
    roots := ["dept2"] }

/-- A primary graph whose `roots` entry names no entity. -/
def danglingRootGraph : Graph := { entities := [], transitions := [], roots := ["r"] }

/-- Primary side of the id-collision scenario of spec §8: `team1` is a child
of `dept`. -/
def collisionPrimary : Graph :=
  { entities :=
      [("dept", { name := some "Engineering", children := ["team1"], properties := some [] }),
       ("team1", { name := some "Frontend", children := [],
                   properties := some [("tech", "React")] })],
    transitions := [], roots := ["dept"] }

/-- Secondary side of the id-collision scenario: an unrelated root also named
`team1` (no path or name match against the primary). -/
def collisionSecondary : Graph :=
  { entities :=
      [("team1", { name := some "Marketing", children := [],
                   properties := some [("region", "EU")] })],
    transitions := [], roots := ["team1"] }

/-- A well-formed graph with two same-named siblings: `a` and `b` both
normalize to `x`, so the last-built path entry `r/x` points at `b`. -/
def twinGraph : Graph :=
  { entities :=
      [("r", { name := some "r", children := ["a", "b"], properties := some [] }),
       ("a", { name := some "x", children := [], properties := some [("k", "va")] }),
       ("b", { name := some "x", children := [], properties := some [] })],
    transitions := [], roots := ["r"] }

/-- Primary graph for the cross-id children counterexample: `A` has child `c`,
and `B` is a second root. -/
def crossPrimary : Graph :=
  { entities :=
      [("A", { name := some "a", children := ["c"], properties := some [] }),
       ("c", { name := some "cc", children := [], properties := some [] }),
       ("B", { name := some "b", children := [], properties := some [] })],
    transitions := [], roots := ["A", "B"] }

/-- Secondary graph for the cross-id counterexample: `sA` matches `A` by path,
and its child reuses the *primary* id `c` while matching primary `B` by name. -/
def crossSecondary : Graph :=
  { entities :=
      [("sA", { name := some "a", children := ["c"], properties := some [] }),
       ("c", { name := some "b", children := [], properties := some [] })],
    transitions := [], roots := ["sA"] }

/-- A well-formed primary graph with two transitions sharing the endpoint pair
`(a, b)`. -/
def dupPairPrimary : Graph :=
  { entities :=
      [("a", { name := some "a", children := ["b"], properties := some [] }),
       ("b", { name := some "b", children := [], properties := some [] })],
    transitions :=
      [("t1", { source := "a", target := "b", properties := some [("w", "1")] }),
       ("t2", { source := "a", target := "b", properties := some [("w", "2")] })],
    roots := ["a"] }

/-- A multi-parent (acyclic) graph: `e` is a child of both the root `r` and of
the deeper entity `a`, and the DFS discovers it at level 1 first (via `r`) and
at level 2 afterwards (via `a`). -/
def multiParentGraph : Graph :=
  { entities :=
      [("r", { name := some "r", children := ["e", "a"], properties := some [] }),
       ("e", { name := some "e", children := [], properties := some [] }),
       ("a", { name := some "a", children := ["e"], properties := some [] })],
    transitions := [], roots := ["r"] }

/-- A cyclic `parent_id` table for the runtime-reduced `build_path`. -/
def cyclicInfo : List (String × RRInfo) :=
  [("a", { name := "A", parentId := some "b" }),
   ("b", { name := "B", parentId := some "a" })]

/-- Primary input for the mutation counterexample. -/
def mutPrimary : Graph :=
  { entities := [("p1", { name := some "P", children := [], properties := some [] })],
    transitions := [], roots := ["p1"] }

/-- Secondary input whose sole entity lacks a `properties` key. -/
def mutSecondary : Graph :=
  { entities := [("s1", { name := some "S", children := [], properties := none })],
    transitions := [], roots := ["s1"] }

/-! ### Structural lemmas about the merge pipeline -/

theorem mem_dinsert {β : Type} {d : List (String × β)} {k k' : String} {v v' : β}
    (h : (k', v') ∈ dinsert d k v) : (k', v') ∈ d ∨ (k' = k ∧ v' = v) := by
  induction d with
  | nil =>
    right
    simpa [dinsert, Prod.ext_iff] using h
  | cons hd tl ih =>
    obtain ⟨k₀, v₀⟩ := hd
    by_cases hk : k₀ = k
    · subst hk
      rcases List.mem_cons.mp (by simpa only [dinsert, if_pos rfl] using h) with h₁ | h₁
      · right
        exact Prod.ext_iff.mp h₁
      · left
        exact List.mem_cons_of_mem _ h₁
    · rcases List.mem_cons.mp (by simpa only [dinsert, if_neg hk] using h) with h₁ | h₁
      · left
        exact h₁ ▸ List.mem_cons_self _ _
      · rcases ih h₁ with h' | h'
        · left
          exact List.mem_cons_of_mem _ h'
        · right
          exact h'

theorem dmem_foldl_dinsert {β : Type} (l : List (String × β)) (acc : List (String × β))
    (k : String) :
    dmem (l.foldl (fun a p => dinsert a p.1 p.2) acc) k
      = (dmem acc k || (dkeys l).contains k) := by
  induction l generalizing acc with
  | nil => simp [dkeys]
  | cons hd tl ih =>
    simp only [List.foldl_cons]
    rw [ih]
    simp only [dmem_dinsert, dkeys, List.map_cons, List.contains_cons]
    by_cases h : hd.1 = k
    · subst h
      simp [Bool.or_assoc]
    · have hbk : (k == hd.1) = false := beq_eq_false_iff_ne.mpr (Ne.symm h)
      simp [h, hbk, Bool.or_assoc]

theorem dmem_initMergedEntities (pg : Graph) (k : String) :
    dmem (initMergedEntities pg) k = (dkeys pg.entities).contains k := by
  have h := dmem_foldl_dinsert pg.entities [] k
  simpa [initMergedEntities, dmem, dlookup] using h

theorem secStep_dmem (pg : Graph) (cP cS : MergeContext) (st : MergeState)
    (id : String) (ent : Entity) (k : String) (h : dmem st.entities k = true) :
    dmem (secStep pg cP cS st id ent).entities k = true := by
  unfold secStep
  split
  · split
    · split
      · exact dmem_of_dmem_dinsert h
      · exact dmem_of_dmem_dinsert h
    · exact dmem_of_dmem_dinsert h
  · exact dmem_of_dmem_dinsert h

theorem secStep_processed (pg : Graph) (cP cS : MergeContext) (st : MergeState)
    (id : String) (ent : Entity) :
    (secStep pg cP cS st id ent).processed = st.processed := by
  unfold secStep
  split
  · split
    · split <;> rfl
    · rfl
  · rfl

theorem processSecondaryEntities_dmem (pg : Graph) (cP cS : MergeContext)
    (l : List (String × Entity)) (st : MergeState) (k : String)
    (h : dmem st.entities k = true) :
    dmem (processSecondaryEntities pg cP cS l st).entities k = true := by
  induction l generalizing st with
  | nil => simpa [processSecondaryEntities] using h
  | cons hd tl ih =>
    obtain ⟨id, ent⟩ := hd
    simp only [processSecondaryEntities]
    by_cases hp : id ∈ st.processed
    · simp only [if_pos hp]
      exact ih st h
    · simp only [if_neg hp]
      exact ih _ (secStep_dmem pg cP cS st id ent k h)

theorem dkeys_updateChildrenRefs (m : List (String × String))
    (es : List (String × Entity)) :
    dkeys (updateChildrenRefs m es) = dkeys es := by
  simp [updateChildrenRefs, dkeys, List.map_map, Function.comp]

theorem dmem_updateChildrenRefs (m : List (String × String))
    (es : List (String × Entity)) (k : String) :
    dmem (updateChildrenRefs m es) k = dmem es k := by
  have hiff : dmem (updateChildrenRefs m es) k = true ↔ dmem es k = true := by
    rw [dmem_iff_mem_dkeys, dmem_iff_mem_dkeys, dkeys_updateChildrenRefs]
  cases h : dmem es k with
  | true => exact hiff.mpr h
  | false =>
    cases h2 : dmem (updateChildrenRefs m es) k with
    | true => exact absurd (hiff.mp h2) (by simp [h])
    | false => rfl

theorem updateChildrenRefs_children_dmem {m : List (String × String)}
    {es : List (String × Entity)} {id : String} {e : Entity} {c : String}
    (h : (id, e) ∈ updateChildrenRefs m es) (hc : c ∈ e.children) :
    dmem es c = true := by
  simp only [updateChildrenRefs, List.mem_map] at h
  obtain ⟨p, _, hpe⟩ := h
  have he : e = { p.2 with children := List.dedup (p.2.children.filterMap (fun c =>
      let mc := mapId m c
      if dmem es mc then some mc else none)) } := (congrArg Prod.snd hpe).symm
  rw [he] at hc
  simp only [List.mem_dedup, List.mem_filterMap] at hc
  obtain ⟨c₀, _, hc₀⟩ := hc
  by_cases hmem : dmem es (mapId m c₀) = true
  · simp only [hmem, if_true] at hc₀
    cases hc₀
    exact hmem
  · simp only [Bool.not_eq_true] at hmem
    simp [hmem] at hc₀

theorem mergeRoots_mem_of_mem_acc (m : List (String × String))
    (es : List (String × Entity)) (sr : List String) (acc : List String) (r : String)
    (h : r ∈ acc) :
    r ∈ sr.foldl (fun acc x =>
      let mx := mapId m x
      if dmem es mx && !(acc.contains mx) then acc ++ [mx] else acc) acc := by
  induction sr generalizing acc with
  | nil => simpa using h
  | cons hd tl ih =>
    simp only [List.foldl_cons]
    apply ih
    split
    · exact List.mem_append_left _ h
    · exact h

theorem mem_mergeRoots_cases (m : List (String × String))
    (es : List (String × Entity)) (sr : List String) (acc : List String) (r : String)
    (h : r ∈ sr.foldl (fun acc x =>
      let mx := mapId m x
      if dmem es mx && !(acc.contains mx) then acc ++ [mx] else acc) acc) :
    r ∈ acc ∨ dmem es r = true := by
  induction sr generalizing acc with
  | nil => left; simpa using h
  | cons hd tl ih =>
    simp only [List.foldl_cons] at h
    rcases ih _ h with h' | h'
    · revert h'
      split
      · next hcond =>
        intro h'
        rcases List.mem_append.mp h' with h'' | h''
        · left; exact h''
        · right
          have hr : r = mapId m hd := by simpa using h''
          rw [hr]
          exact ((Bool.and_eq_true _ _).mp hcond).1
      · intro h'
        left; exact h'
    · right; exact h'

theorem mem_mergeRoots_of_mem_primary (m : List (String × String))
    (es : List (String × Entity)) (pr sr : List String) (r : String) (h : r ∈ pr) :
    r ∈ mergeRoots m es pr sr := by
  exact mergeRoots_mem_of_mem_acc m es sr (List.dedup pr) r (List.mem_dedup.mpr h)

theorem mem_mergeRoots (m : List (String × String)) (es : List (String × Entity))
    (pr sr : List String) (r : String) (h : r ∈ mergeRoots m es pr sr) :
    r ∈ pr ∨ dmem es r = true := by
  rcases mem_mergeRoots_cases m es sr (List.dedup pr) r h with h' | h'
  · left; exact List.mem_dedup.mp h'
  · right; exact h'

theorem addPrimaryTransitions_fst_mem (m : List (String × String))
    (l : List (String × Transition)) (mt : List (String × Transition))
    (tmap : List (String × String)) {tid : String} {t : Transition}
    (h : (tid, t) ∈ (addPrimaryTransitions m l (mt, tmap)).1) :
    (tid, t) ∈ mt ∨ (tid, t) ∈ l := by
  induction l generalizing mt tmap with
  | nil => left; simpa [addPrimaryTransitions] using h
  | cons hd tl ih =>
    obtain ⟨tid₀, t₀⟩ := hd
    simp only [addPrimaryTransitions] at h
    rcases ih _ _ h with h' | h'
    · rcases mem_dinsert h' with h'' | h''
      · left; exact h''
      · right
        rw [h''.1, h''.2]
        exact List.mem_cons_self _ _
    · right
      exact List.mem_cons_of_mem _ h'

theorem transStep_closed (m : List (String × String)) (es : List (String × Entity))
    (mt : List (String × Transition)) (tmap : List (String × String))
    (tid₀ : String) (t₀ : Transition)
    (mt' : List (String × Transition)) (tmap' : List (String × String))
    (h : transStep m es mt tmap tid₀ t₀ = some (mt', tmap'))
    (hmt : ∀ tid t, (tid, t) ∈ mt → dmem es t.source = true ∧ dmem es t.target = true) :
    ∀ tid t, (tid, t) ∈ mt' → dmem es t.source = true ∧ dmem es t.target = true := by
  unfold transStep at h
  cases hsig : dlookup tmap (transitionSignature m t₀.source t₀.target) with
  | some eid =>
    simp only [hsig] at h
    cases hle : dlookup mt eid with
    | none => simp [hle] at h
    | some et =>
      simp only [hle] at h
      cases hps : et.properties with
      | none => simp [hps] at h
      | some ps =>
        simp only [hps, Option.some.injEq, Prod.mk.injEq] at h
        intro tid t hmem
        rw [← h.1] at hmem
        rcases mem_dinsert hmem with h' | h'
        · exact hmt tid t h'
        · have hbase := hmt eid et (dlookup_mem hle)
          rw [h'.2]
          exact hbase
  | none =>
    simp only [hsig] at h
    by_cases hg : (dmem es (mapId m t₀.source) && dmem es (mapId m t₀.target)) = true
    · rw [if_pos hg] at h
      cases hf : freshTransId tid₀ (dkeys mt) with
      | none => simp [hf] at h
      | some nid =>
        simp only [hf, Option.some.injEq, Prod.mk.injEq] at h
        intro tid t hmem
        rw [← h.1] at hmem
        rcases mem_dinsert hmem with h' | h'
        · exact hmt tid t h'
        · rw [h'.2]
          exact ⟨((Bool.and_eq_true _ _).mp hg).1, ((Bool.and_eq_true _ _).mp hg).2⟩
    · rw [if_neg hg] at h
      simp only [Option.some.injEq, Prod.mk.injEq] at h
      rw [← h.1]
      exact hmt

theorem processSecondaryTransitions_closed (m : List (String × String))
    (es : List (String × Entity)) (ts : List (String × Transition))
    (mt out : List (String × Transition)) (tmap : List (String × String))
    (hrun : processSecondaryTransitions m es ts mt tmap = some out)
    (hmt : ∀ tid t, (tid, t) ∈ mt → dmem es t.source = true ∧ dmem es t.target = true) :
    ∀ tid t, (tid, t) ∈ out → dmem es t.source = true ∧ dmem es t.target = true := by
  induction ts generalizing mt tmap with
  | nil =>
    simp only [processSecondaryTransitions, Option.some.injEq] at hrun
    subst hrun
    exact hmt
  | cons hd tl ih =>
    obtain ⟨tid₀, t₀⟩ := hd
    simp only [processSecondaryTransitions] at hrun
    cases hstep : transStep m es mt tmap tid₀ t₀ with
    | none => rw [hstep] at hrun; exact absurd hrun (by simp)
    | some pr =>
      obtain ⟨mt', tmap'⟩ := pr
      rw [hstep] at hrun
      exact ih _ _ hrun (transStep_closed m es mt tmap tid₀ t₀ mt' tmap' hstep hmt)

/-! ### Characterizations of one secondary-entity step -/

theorem secStep_eq_merge {pg : Graph} {cP cS : MergeContext} {st : MergeState}
    {id : String} {ent : Entity} {mid : String} {cur : Entity}
    (hf : findMatchingEntity pg cP cS id ent = some mid)
    (hlk : dlookup st.entities mid = some cur) (hne : mid ≠ "") :
    secStep pg cP cS st id ent =
      { st with entities := dinsert st.entities mid (mergeEntityProperties cur ent),
                mappings := dinsert st.mappings id mid } := by
  unfold secStep
  simp only [hf, hlk, if_neg hne]

theorem secStep_eq_add_of_empty {pg : Graph} {cP cS : MergeContext} {st : MergeState}
    {id : String} {ent : Entity} {cur : Entity}
    (hf : findMatchingEntity pg cP cS id ent = some "")
    (hlk : dlookup st.entities "" = some cur) :
    secStep pg cP cS st id ent = { st with entities := dinsert st.entities id ent } := by
  unfold secStep
  simp [hf, hlk]

theorem secStep_eq_add_of_absent {pg : Graph} {cP cS : MergeContext} {st : MergeState}
    {id : String} {ent : Entity} {mid : String}
    (hf : findMatchingEntity pg cP cS id ent = some mid)
    (hlk : dlookup st.entities mid = none) :
    secStep pg cP cS st id ent = { st with entities := dinsert st.entities id ent } := by
  unfold secStep
  simp only [hf, hlk]

theorem secStep_eq_add_of_none {pg : Graph} {cP cS : MergeContext} {st : MergeState}
    {id : String} {ent : Entity}
    (hf : findMatchingEntity pg cP cS id ent = none) :
    secStep pg cP cS st id ent = { st with entities := dinsert st.entities id ent } := by
  unfold secStep
  simp only [hf]

theorem processSecondaryEntities_cons (pg : Graph) (cP cS : MergeContext)
    (id : String) (ent : Entity) (rest : List (String × Entity)) (st : MergeState)
    (hp : id ∉ st.processed) :
    processSecondaryEntities pg cP cS ((id, ent) :: rest) st =
      processSecondaryEntities pg cP cS rest
        { secStep pg cP cS st id ent with
          processed := id :: (secStep pg cP cS st id ent).processed } := by
  simp only [processSecondaryEntities, if_neg hp]

/-! ### The self-merge characterization used for idempotence -/

/-- `v` agrees with `e` on property lookups and on the children *set*. -/
def selfLike (e v : Entity) : Prop :=
  (∀ k, dlookup (v.properties.getD []) k = dlookup (e.properties.getD []) k) ∧
  (∀ c, c ∈ v.children ↔ c ∈ e.children)

theorem selfLike_refl (e : Entity) : selfLike e e :=
  ⟨fun _ => rfl, fun _ => Iff.rfl⟩

theorem selfLike_trans {a b c : Entity} (h₁ : selfLike a b) (h₂ : selfLike b c) :
    selfLike a c :=
  ⟨fun k => (h₂.1 k).trans (h₁.1 k), fun x => (h₂.2 x).trans (h₁.2 x)⟩

theorem selfLike_mergeEntityProperties {e cur : Entity}
    (hnd : (dkeys (e.properties.getD [])).Nodup) (h : selfLike e cur) :
    selfLike e (mergeEntityProperties cur e) := by
  constructor
  · intro k
    have hd := dlookup_dupdate (cur.properties.getD []) (e.properties.getD []) k hnd
    simp only [mergeEntityProperties, Option.getD_some]
    rw [hd]
    cases he : dlookup (e.properties.getD []) k with
    | none => simp [Option.orElse, h.1 k, he]
    | some v => simp [Option.orElse, he]
  · intro c
    simp only [mergeEntityProperties, List.mem_dedup, List.mem_append]
    constructor
    · rintro (hc | hc)
      · exact (h.2 c).mp hc
      · exact hc
    · intro hc
      exact Or.inr hc

theorem findMatchingEntity_self (pg : Graph) (ctx : MergeContext)
    (id : String) (ent : Entity)
    (hsm : ∀ q ∈ ctx.entityPaths, dlookup ctx.pathToId (Prod.snd q).fullPath
      = some (Prod.fst q)) :
    findMatchingEntity pg ctx ctx id ent = some id ∨
    findMatchingEntity pg ctx ctx id ent = none := by
  unfold findMatchingEntity
  cases hep : dlookup ctx.entityPaths id with
  | none =>
    right
    simp [hep]
  | some ep =>
    left
    have hpath := hsm (id, ep) (dlookup_mem hep)
    simp [hep, hpath]

theorem mapId_identity {m : List (String × String)}
    (h : ∀ q ∈ m, Prod.snd q = Prod.fst q) (c : String) : mapId m c = c := by
  unfold mapId
  cases hl : dlookup m c with
  | none => rfl
  | some b =>
    have := h (c, b) (dlookup_mem hl)
    simp at this
    simp [this]

theorem selfmerge_fold (pg : Graph) (cP cS : MergeContext) :
    ∀ (l : List (String × Entity)) (st : MergeState),
      (dkeys l).Nodup →
      (∀ p ∈ l, (Prod.fst p) ∉ st.processed) →
      (∀ p ∈ l, (dkeys ((Prod.snd p).properties.getD [])).Nodup) →
      (∀ p ∈ l, findMatchingEntity pg cP cS p.1 p.2 = some p.1 ∨
                 findMatchingEntity pg cP cS p.1 p.2 = none) →
      (∀ p ∈ l, dlookup st.entities p.1 = some p.2) →
      (∀ q ∈ st.mappings, Prod.snd q = Prod.fst q) →
      ((∀ q ∈ (processSecondaryEntities pg cP cS l st).mappings,
          Prod.snd q = Prod.fst q) ∧
       dkeys (processSecondaryEntities pg cP cS l st).entities = dkeys st.entities ∧
       (∀ id₀ e₀, dlookup st.entities id₀ = some e₀ →
         ∃ v, dlookup (processSecondaryEntities pg cP cS l st).entities id₀ = some v ∧
           selfLike e₀ v)) := by
  intro l
  induction l with
  | nil =>
    intro st _ _ _ _ _ hmapid
    refine ⟨hmapid, rfl, ?_⟩
    intro id₀ e₀ h
    exact ⟨e₀, h, selfLike_refl e₀⟩
  | cons hd rest ih =>
    intro st hnd hproc hprops hfind hcur hmapid
    obtain ⟨id, ent⟩ := hd
    have hnd2 : (id :: dkeys rest).Nodup := hnd
    have hndk : id ∉ dkeys rest := (List.nodup_cons.mp hnd2).1
    have hndr : (dkeys rest).Nodup := (List.nodup_cons.mp hnd2).2
    have hcur₀ : dlookup st.entities id = some ent := hcur (id, ent) (by simp)
    have hdmem₀ : dmem st.entities id = true := by simp [dmem, hcur₀]
    -- characterize the step
    have hstep : ∃ v', (secStep pg cP cS st id ent =
        { st with entities := dinsert st.entities id v',
                  mappings := dinsert st.mappings id id } ∨
        secStep pg cP cS st id ent =
        { st with entities := dinsert st.entities id v' }) ∧ selfLike ent v' := by
      rcases hfind (id, ent) (by simp) with hf | hf
      · by_cases hne : id = ""
        · subst hne
          refine ⟨ent, Or.inr ?_, selfLike_refl ent⟩
          exact secStep_eq_add_of_empty hf hcur₀
        · refine ⟨mergeEntityProperties ent ent, Or.inl ?_,
            selfLike_mergeEntityProperties (hprops (id, ent) (by simp)) (selfLike_refl ent)⟩
          exact secStep_eq_merge hf hcur₀ hne
      · refine ⟨ent, Or.inr ?_, selfLike_refl ent⟩
        exact secStep_eq_add_of_none hf
    obtain ⟨v', hstep, hlike⟩ := hstep
    have hproc₀ : id ∉ st.processed := hproc (id, ent) (by simp)
    rw [processSecondaryEntities_cons pg cP cS id ent rest st hproc₀]
    -- both branch shapes share the entity dict and processed update
    have hmain : ∀ (st₂ : MergeState),
        st₂.entities = dinsert st.entities id v' →
        st₂.processed = id :: st.processed →
        (∀ q ∈ st₂.mappings, Prod.snd q = Prod.fst q) →
        ((∀ q ∈ (processSecondaryEntities pg cP cS rest st₂).mappings,
            Prod.snd q = Prod.fst q) ∧
         dkeys (processSecondaryEntities pg cP cS rest st₂).entities = dkeys st.entities ∧
         (∀ id₀ e₀, dlookup st.entities id₀ = some e₀ →
           ∃ v, dlookup (processSecondaryEntities pg cP cS rest st₂).entities id₀
              = some v ∧ selfLike e₀ v)) := by
      intro st₂ he₂ hp₂ hm₂
      have hres := ih st₂
        hndr
        (by
          intro p hp
          rw [hp₂]
          simp only [List.mem_cons, not_or]
          constructor
          · intro hc
            exact hndk (hc ▸ (List.mem_map.mpr ⟨p, hp, rfl⟩))
          · exact hproc p (List.mem_cons_of_mem _ hp))
        (fun p hp => hprops p (List.mem_cons_of_mem _ hp))
        (fun p hp => hfind p (List.mem_cons_of_mem _ hp))
        (by
          intro p hp
          have hne : id ≠ p.1 := by
            intro hc
            exact hndk (hc ▸ (List.mem_map.mpr ⟨p, hp, rfl⟩))
          rw [he₂, dlookup_dinsert_ne st.entities id p.1 v' hne]
          exact hcur p (List.mem_cons_of_mem _ hp))
        hm₂
      refine ⟨hres.1, ?_, ?_⟩
      · rw [hres.2.1, he₂]
        exact dkeys_dinsert_of_dmem v' hdmem₀
      · intro id₀ e₀ h₀
        by_cases hid : id₀ = id
        · subst hid
          have he₀ : e₀ = ent := by
            rw [h₀] at hcur₀
            exact Option.some.injEq _ _ ▸ hcur₀
          subst he₀
          obtain ⟨v, hv, hvl⟩ := hres.2.2 id₀ v'
            (by rw [he₂]; exact dlookup_dinsert_self st.entities id₀ v')
          exact ⟨v, hv, selfLike_trans hlike hvl⟩
        · obtain ⟨v, hv, hvl⟩ := hres.2.2 id₀ e₀ (by
            rw [he₂, dlookup_dinsert_ne st.entities id id₀ v' (fun hc => hid hc.symm)]
            exact h₀)
          exact ⟨v, hv, hvl⟩
    rcases hstep with hs | hs
    · rw [hs]
      refine hmain _ rfl rfl ?_
      intro q hq
      rcases mem_dinsert hq with h' | h'
      · exact hmapid q h'
      · obtain ⟨h1, h2⟩ := h'
        rw [h1, h2]
    · rw [hs]
      exact hmain _ rfl rfl hmapid

/-! ### C2 — property merge: key-set union, fixed winning side -/

/-- **C2.** For every matched primary/secondary pair,
`GraphMerger.merge_entity_properties` of `dict_merger_optimized_v3.py`
produces a property map whose key set is the union of the two key sets, and
whose value at every key present in both sides is the *secondary* value —
the same fixed side for every key and every call
(`merged['properties'].update(secondary.get('properties', {}))`). -/
theorem mergeEntityProperties_key_union_secondary_wins
    (p s : Entity) (hs : (dkeys (s.properties.getD [])).Nodup) (k : String) :
    dlookup ((mergeEntityProperties p s).properties.getD []) k
        = (dlookup (s.properties.getD []) k).orElse
            (fun _ => dlookup (p.properties.getD []) k) ∧
    dmem ((mergeEntityProperties p s).properties.getD []) k
        = (dmem (s.properties.getD []) k || dmem (p.properties.getD []) k) := by
  have h := dlookup_dupdate (p.properties.getD []) (s.properties.getD []) k hs
  refine ⟨by simpa [mergeEntityProperties] using h, ?_⟩
  simp only [mergeEntityProperties, Option.getD_some, dmem]
  rw [h]
  cases dlookup (s.properties.getD []) k <;> simp [Option.orElse]

/-- Secondary entity used by the C2 witness. -/
def c2Secondary : Entity :=
  { name := some "S", children := [], properties := some [("b", "3"), ("c", "4")] }

/-- Primary entity used by the C2 witness. -/
def c2Primary : Entity :=
  { name := some "P", children := [], properties := some [("a", "1"), ("b", "2")] }

/-- Witness for C2 at a concrete overlapping key: the secondary value wins. -/
theorem mergeEntityProperties_key_union_secondary_wins_witness :
    (dkeys (c2Secondary.properties.getD [])).Nodup ∧
    dlookup ((mergeEntityProperties c2Primary c2Secondary).properties.getD []) "b"
      = some "3" := by
  refine ⟨by decide, ?_⟩
  have h := (mergeEntityProperties_key_union_secondary_wins c2Primary c2Secondary
    (by decide) "b").1
  rw [h]
  decide

/-! ### C8 — exact-path tier of the matcher fires first -/

/-- **C8.** For every indexed secondary entity whose full path string is a key
of the primary `path_to_id` table, `find_matching_entity` of
`dict_merger_optimized_v3.py` returns the primary id stored under that path —
regardless of the primary graph, the name tiers, or the entity argument, so
the exact-path tier takes precedence over every name-based tier. -/
theorem findMatchingEntity_exact_path_first
    (pg : Graph) (ctxP ctxS : MergeContext) (id : String) (ent : Entity)
    (ep : EntityPath) (pid : String)
    (h1 : dlookup ctxS.entityPaths id = some ep)
    (h2 : dlookup ctxP.pathToId ep.fullPath = some pid) :
    findMatchingEntity pg ctxP ctxS id ent = some pid := by
  simp [findMatchingEntity, h1, h2]

/-- Secondary context for the C8 witness. -/
def c8CtxS : MergeContext :=
  { entityPaths := [("x", { entityId := "x", name := "different", fullPath := "pp",
                            level := 0, parentId := none, rootId := "x" })],
    pathToId := [("pp", "x")] }

/-- Primary context for the C8 witness: the path table maps `pp` to `y`, while
no name-based information about `y` exists at all. -/
def c8CtxP : MergeContext :=
  { entityPaths := [], pathToId := [("pp", "y")] }

/-- Witness for C8: the exact-path hit returns `y` even though every name tier
would fail (the primary context indexes no entity paths at all). -/
theorem findMatchingEntity_exact_path_first_witness :
    dlookup c8CtxS.entityPaths "x"
        = some { entityId := "x", name := "different", fullPath := "pp",
                 level := 0, parentId := none, rootId := "x" } ∧
    dlookup c8CtxP.pathToId "pp" = some "y" ∧
    findMatchingEntity emptyGraph c8CtxP c8CtxS "x"
        { name := some "z", children := [], properties := none } = some "y" := by
  refine ⟨by decide, by decide, ?_⟩
  exact findMatchingEntity_exact_path_first emptyGraph c8CtxP c8CtxS "x"
    { name := some "z", children := [], properties := none }
    { entityId := "x", name := "different", fullPath := "pp",
      level := 0, parentId := none, rootId := "x" } "y" (by decide) (by decide)

/-! ### C4 — id collision on an unmatched secondary entity (code bug) -/

/-- **C4.** The claim says a colliding unmatched secondary entity is inserted
under a fresh `_1`-suffixed id with the previous holder preserved (the scheme
of `generate_unique_id` in `dict_merger.py` and spec §6/§8). Evaluating
`GraphMerger.merge_graphs` of `dict_merger_optimized_v3.py` at the failing
input shows the opposite: the unmatched secondary `team1` *overwrites* the
primary `team1`, no `team1_1` is created, and the primary entity is lost. -/
theorem merge_overwrites_colliding_unmatched_secondary :
    (mergeGraphs collisionPrimary collisionSecondary).map
        (fun g => (dlookup g.entities "team1", dmem g.entities "team1_1"))
      = some (some { name := some "Marketing", children := [],
                     properties := some [("region", "EU")] }, false) := by
  decide

/-! ### Counterexamples for the corrected claims -/

/-- Counterexample to **C1** as stated (quantified over *every* pair of input
graphs): a primary graph whose `roots` names no entity yields a merged graph
whose `roots` entry `r` is not a key of its `entities` — `merge_graphs` never
filters primary roots. -/
theorem merge_dangling_primary_root_survives :
    (mergeGraphs danglingRootGraph emptyGraph).map
        (fun g => (g.roots, dmem g.entities "r"))
      = some (["r"], false) := by
  decide

/-- Counterexample to **C3** as stated: for the matched pair `A ← sA`
(the ID map sends `sA` to `A`), the claimed children
`{c} ∪ {mapped c} = {c, B}` differ from the merged children `["B"]` — the
final reference pass also rewrites *primary* children through the ID map, so
the primary child `c` (whose id coincides with a matched secondary id) is
replaced by `B`. -/
theorem merge_children_union_counterexample :
    (mergeGraphsCore crossPrimary crossSecondary).map
        (fun r => ((dlookup r.1.entities "A").map Entity.children,
                   dlookup r.2 "sA", mapId r.2 "c"))
      = some (some ["B"], some "A", "B") ∧ "c" ∉ (["B"] : List String) := by
  exact ⟨by decide, by decide⟩

/-- Counterexample to **C5** as stated: `twinGraph` is well-formed, yet in
`merge(G, G)` the entity `b` (which shadows its same-named sibling `a` in the
path table) absorbs `a`'s properties: its property map gains the key `k`. -/
theorem merge_self_changes_properties :
    (mergeGraphs twinGraph twinGraph).map
        (fun g => (dlookup g.entities "b").map
          (fun e => dlookup (e.properties.getD []) "k"))
      = some (some (some "va")) ∧
    (dlookup twinGraph.entities "b").map
        (fun e => dlookup (e.properties.getD []) "k") = some none := by
  exact ⟨by decide, by decide⟩

/-- Counterexample to **C6** as stated: two *primary* transitions with the
same `(source, target)` pair both survive the merge — only secondary
transitions are deduplicated against `transition_map`. -/
theorem merge_duplicate_primary_pairs_survive :
    (mergeGraphs dupPairPrimary emptyGraph).map
        (fun g => g.transitions.map (fun t => (t.2.source, t.2.target)))
      = some [("a", "b"), ("a", "b")] := by
  decide

/-! ### C7 — what a merge call does to its inputs -/

theorem dinsert_append_of_not_mem {β : Type} {d₁ : List (String × β)}
    (d₂ : List (String × β)) (k : String) (v : β) (h : k ∉ dkeys d₁) :
    dinsert (d₁ ++ d₂) k v = d₁ ++ dinsert d₂ k v := by
  induction d₁ with
  | nil => simp
  | cons hd tl ih =>
    obtain ⟨k₀, v₀⟩ := hd
    simp only [dkeys, List.map_cons, List.mem_cons, not_or] at h
    simp only [List.cons_append, dinsert, if_neg (fun hc : k₀ = k => h.1 hc.symm),
      List.append_eq]
    rw [ih (by simpa [dkeys] using h.2)]

theorem dkeys_map_val {β : Type} (f : β → β) (l : List (String × β)) :
    dkeys (l.map (fun p => (p.1, f p.2))) = dkeys l := by
  simp [dkeys, List.map_map, Function.comp]

theorem foldl_dinsert_map_aux {β : Type} (f : β → β) (post pre : List (String × β))
    (h : (dkeys (pre ++ post)).Nodup) :
    post.foldl (fun acc p => dinsert acc p.1 (f p.2))
        (pre.map (fun p => (p.1, f p.2)) ++ post)
      = (pre ++ post).map (fun p => (p.1, f p.2)) := by
  induction post generalizing pre with
  | nil => simp
  | cons hd tl ih =>
    obtain ⟨id, e⟩ := hd
    have hsplit : (dkeys pre).Disjoint (dkeys ((id, e) :: tl)) := by
      have h' := h
      rw [show dkeys (pre ++ (id, e) :: tl) = dkeys pre ++ dkeys ((id, e) :: tl) by
        simp [dkeys]] at h'
      exact (List.nodup_append.mp h').2.2
    have hid : id ∉ dkeys (pre.map (fun p => (p.1, f p.2))) := by
      rw [dkeys_map_val]
      intro hc
      exact hsplit hc (by simp [dkeys])
    simp only [List.foldl_cons]
    rw [dinsert_append_of_not_mem _ _ _ hid]
    have hins : dinsert ((id, e) :: tl) id (f e) = (id, f e) :: tl := by
      simp [dinsert]
    rw [hins]
    have hre : pre.map (fun p => (p.1, f p.2)) ++ (id, f e) :: tl
        = (pre ++ [(id, e)]).map (fun p => (p.1, f p.2)) ++ tl := by
      simp
    rw [hre, ih (pre ++ [(id, e)]) (by simpa using h)]
    simp

theorem foldl_dinsert_self_map {β : Type} (f : β → β) (l : List (String × β))
    (h : (dkeys l).Nodup) :
    l.foldl (fun acc p => dinsert acc p.1 (f p.2)) l = l.map (fun p => (p.1, f p.2)) := by
  have := foldl_dinsert_map_aux f l [] (by simpa using h)
  simpa using this

theorem v2EntityLoop_sgents (sgRoots : List String)
    (pp sp : List (String × List String)) (l : List (String × Entity)) (st : V2State) :
    (v2EntityLoop sgRoots pp sp l st).sgents
      = l.foldl (fun acc p => dinsert acc p.1 (coerceEntityProps p.2)) st.sgents := by
  induction l generalizing st with
  | nil => simp [v2EntityLoop]
  | cons hd tl ih =>
    obtain ⟨id, e⟩ := hd
    simp only [v2EntityLoop, List.foldl_cons]
    split
    · split
      · exact ih _
      · exact ih _
    · split
      · exact ih _
      · split
        · exact ih _
        · split
          · exact ih _
          · exact ih _

theorem v2TransLoop_sgtrans (ments : List (String × Entity))
    (l mtrans sgtrans : List (String × Transition))
    (out₁ out₂ : List (String × Transition))
    (h : v2TransLoop ments l (mtrans, sgtrans) = some (out₁, out₂)) :
    out₂ = l.foldl (fun acc p => dinsert acc p.1 (coerceTransProps p.2)) sgtrans := by
  induction l generalizing mtrans sgtrans with
  | nil =>
    simp only [v2TransLoop, Option.some.injEq, Prod.mk.injEq] at h
    simp [← h.2]
  | cons hd tl ih =>
    obtain ⟨tid, t⟩ := hd
    simp only [v2TransLoop, List.foldl_cons] at h ⊢
    by_cases hg : (dmem ments t.source && dmem ments t.target) = true
    · rw [if_pos hg] at h
      cases hf : freshTransId tid (dkeys mtrans) with
      | none => simp [hf] at h
      | some nid =>
        simp only [hf] at h
        exact ih _ _ h
    · rw [if_neg hg] at h
      exact ih _ _ h

/-- **C7 (amended).** A `merge_graph_dicts` call of `dict_merger_v2.py` that
returns leaves the primary input unread-only (the embedding threads no
primary state because the Python function never writes to it) but *mutates
the secondary input*: on return, the secondary graph equals its original
value with every entity's and transition's missing `properties` key coerced
to `{}`, and is otherwise unchanged. -/
theorem mergeGraphDicts_mutation_is_props_coercion
    (pg sg m sg' : Graph)
    (hk : (dkeys sg.entities).Nodup) (ht : (dkeys sg.transitions).Nodup)
    (hm : mergeGraphDicts pg sg = some (m, sg')) :
    sg' = coerceGraphProps sg := by
  unfold mergeGraphDicts at hm
  cases h1 : getAllPaths pg (pg.entities.length + 1) pg.entities [] with
  | none => simp [h1] at hm
  | some primaryPaths =>
    cases h2 : getAllPaths sg (sg.entities.length + 1) sg.entities [] with
    | none => simp [h1, h2] at hm
    | some secondaryPaths =>
      simp only [h1, h2] at hm
      cases h3 : v2TransLoop
          (v2EntityLoop sg.roots primaryPaths secondaryPaths sg.entities
            { ments := pg.entities.map (fun p => (p.1, coerceEntityProps p.2)),
              mroots := pg.roots,
              sgents := sg.entities,
              processed := dkeys (pg.entities.map (fun p => (p.1, coerceEntityProps p.2))) }).ments
          sg.transitions
          (pg.transitions.map (fun p => (p.1, coerceTransProps p.2)), sg.transitions) with
      | none => rw [h3] at hm; exact absurd hm (by simp)
      | some pr =>
        obtain ⟨mtrans, sgtrans⟩ := pr
        rw [h3] at hm
        simp only [Option.some.injEq, Prod.mk.injEq] at hm
        obtain ⟨hm1, hm2⟩ := hm
        rw [← hm2]
        have he := v2EntityLoop_sgents sg.roots primaryPaths secondaryPaths sg.entities
          ⟨pg.entities.map (fun p => (p.1, coerceEntityProps p.2)), pg.roots, sg.entities,
           dkeys (pg.entities.map (fun p => (p.1, coerceEntityProps p.2)))⟩
        have htr := v2TransLoop_sgtrans _ sg.transitions _ _ mtrans sgtrans h3
        rw [he, foldl_dinsert_self_map coerceEntityProps sg.entities hk, htr,
            foldl_dinsert_self_map coerceTransProps sg.transitions ht]
        rfl

/-- The merged output of the mutation scenario, used by the C7 witness. -/
def mutOut : Graph :=
  { entities := [("p1", { name := some "P", children := [], properties := some [] })],
    transitions := [], roots := ["p1"] }

/-- The final state of the secondary argument in the mutation scenario. -/
def mutSecondaryFinal : Graph :=
  { entities := [("s1", { name := some "S", children := [], properties := some [] })],
    transitions := [], roots := ["s1"] }

/-- Witness for C7: at the concrete inputs the returned secondary state is
exactly the property-coerced secondary. -/
theorem mergeGraphDicts_mutation_is_props_coercion_witness :
    mergeGraphDicts mutPrimary mutSecondary = some (mutOut, mutSecondaryFinal) ∧
    mutSecondaryFinal = coerceGraphProps mutSecondary := by
  refine ⟨by decide, ?_⟩
  exact mergeGraphDicts_mutation_is_props_coercion mutPrimary mutSecondary mutOut
    mutSecondaryFinal (by decide) (by decide) (by decide)

/-- Counterexample to **C7** as stated: `merge_graph_dicts` of
`dict_merger_v2.py` returns with its *secondary argument mutated* — the entity
`s1`, which lacked a `properties` key, now carries `properties = {}`. -/
theorem mergeGraphDicts_mutates_secondary :
    (mergeGraphDicts mutPrimary mutSecondary).map (fun r => r.2)
        = some (coerceGraphProps mutSecondary) ∧
    coerceGraphProps mutSecondary ≠ mutSecondary := by
  exact ⟨by decide, by decide⟩

/-! ### C10 — primary ids and roots always survive -/

/-- **C10.** For every pair of input graphs on which `merge_graphs` of
`dict_merger_optimized_v3.py` returns, every entity id of the primary graph is
a key of the merged `entities` and every primary root is contained in the
merged `roots`: the merge never deletes or renames a primary-side id,
regardless of the secondary graph (an unmatched colliding secondary entity
may *rebind* a primary key, but the key itself survives). -/
theorem merge_preserves_primary_ids_and_roots
    (pg sg out : Graph) (hm : mergeGraphs pg sg = some out) :
    (∀ id, dmem pg.entities id = true → dmem out.entities id = true) ∧
    (∀ r, r ∈ pg.roots → r ∈ out.roots) := by
  simp only [mergeGraphs, mergeGraphsCore] at hm
  cases hP : buildGraphContext pg (pg.entities.length + 1) with
  | none => simp [hP] at hm
  | some ctxP =>
    cases hS : buildGraphContext sg (sg.entities.length + 1) with
    | none => simp [hP, hS] at hm
    | some ctxS =>
      simp only [hP, hS] at hm
      rcases hadd : addPrimaryTransitions
        (processSecondaryEntities pg ctxP ctxS sg.entities
          { entities := initMergedEntities pg, mappings := [], processed := [] }).mappings
        pg.transitions ([], []) with ⟨mt, tmap⟩
      rw [hadd] at hm
      cases hT : processSecondaryTransitions
        (processSecondaryEntities pg ctxP ctxS sg.entities
          { entities := initMergedEntities pg, mappings := [], processed := [] }).mappings
        (updateChildrenRefs
          (processSecondaryEntities pg ctxP ctxS sg.entities
            { entities := initMergedEntities pg, mappings := [], processed := [] }).mappings
          (processSecondaryEntities pg ctxP ctxS sg.entities
            { entities := initMergedEntities pg, mappings := [], processed := [] }).entities)
        sg.transitions mt tmap with
      | none => rw [hT] at hm; exact absurd hm (by simp)
      | some mt' =>
        rw [hT] at hm
        simp only [Option.map_some', Option.some.injEq] at hm
        subst hm
        constructor
        · intro id hid
          rw [dmem_updateChildrenRefs]
          apply processSecondaryEntities_dmem
          rw [dmem_initMergedEntities]
          exact List.elem_iff.mpr ((dmem_iff_mem_dkeys pg.entities id).mp hid)
        · intro r hr
          exact mem_mergeRoots_of_mem_primary _ _ pg.roots sg.roots r hr

/-- The merged output of the collision scenario, used by the C10 witness. -/
def collisionOut : Graph :=
  { entities :=
      [("dept", { name := some "Engineering", children := ["team1"], properties := some [] }),
       ("team1", { name := some "Marketing", children := [],
                   properties := some [("region", "EU")] })],
    transitions := [], roots := ["dept", "team1"] }

/-- Witness for C10 on the collision scenario: the primary id `dept` survives
as an entity key and as a root even though the secondary overwrote `team1`. -/
theorem merge_preserves_primary_ids_and_roots_witness :
    mergeGraphs collisionPrimary collisionSecondary = some collisionOut ∧
    dmem collisionOut.entities "dept" = true ∧ "dept" ∈ collisionOut.roots := by
  refine ⟨by decide, ?_, ?_⟩
  · exact (merge_preserves_primary_ids_and_roots collisionPrimary collisionSecondary
      collisionOut (by decide)).1 "dept" (by decide)
  · exact (merge_preserves_primary_ids_and_roots collisionPrimary collisionSecondary
      collisionOut (by decide)).2 "dept" (by decide)

/-! ### C1 — referential closure of the merged output -/

/-- **C1 (amended).** Whenever `merge_graphs` of `dict_merger_optimized_v3.py`
returns and the *primary* input's roots and transition endpoints all refer to
primary entities (in particular for well-formed inputs), the returned graph is
referentially closed: every id in any entity's `children`, every id in
`roots`, and every transition's `source` and `target` is a key of its
`entities`. The children clause needs no hypothesis at all (the final
reference pass filters children); the hypotheses on primary roots and primary
transition endpoints are required because those are copied verbatim. -/
theorem merge_output_referentially_closed
    (pg sg out : Graph) (hm : mergeGraphs pg sg = some out)
    (hroots : ∀ r, r ∈ pg.roots → dmem pg.entities r = true)
    (htrans : ∀ p ∈ pg.transitions,
      dmem pg.entities (Prod.snd p).source = true ∧
      dmem pg.entities (Prod.snd p).target = true) :
    (∀ id e, (id, e) ∈ out.entities → ∀ c, c ∈ e.children → dmem out.entities c = true) ∧
    (∀ r, r ∈ out.roots → dmem out.entities r = true) ∧
    (∀ tid t, (tid, t) ∈ out.transitions →
      dmem out.entities t.source = true ∧ dmem out.entities t.target = true) := by
  simp only [mergeGraphs, mergeGraphsCore] at hm
  cases hP : buildGraphContext pg (pg.entities.length + 1) with
  | none => simp [hP] at hm
  | some ctxP =>
    cases hS : buildGraphContext sg (sg.entities.length + 1) with
    | none => simp [hP, hS] at hm
    | some ctxS =>
      simp only [hP, hS] at hm
      rcases hadd : addPrimaryTransitions
        (processSecondaryEntities pg ctxP ctxS sg.entities
          { entities := initMergedEntities pg, mappings := [], processed := [] }).mappings
        pg.transitions ([], []) with ⟨mt, tmap⟩
      rw [hadd] at hm
      cases hT : processSecondaryTransitions
        (processSecondaryEntities pg ctxP ctxS sg.entities
          { entities := initMergedEntities pg, mappings := [], processed := [] }).mappings
        (updateChildrenRefs
          (processSecondaryEntities pg ctxP ctxS sg.entities
            { entities := initMergedEntities pg, mappings := [], processed := [] }).mappings
          (processSecondaryEntities pg ctxP ctxS sg.entities
            { entities := initMergedEntities pg, mappings := [], processed := [] }).entities)
        sg.transitions mt tmap with
      | none => rw [hT] at hm; exact absurd hm (by simp)
      | some mt' =>
        rw [hT] at hm
        simp only [Option.map_some', Option.some.injEq] at hm
        subst hm
        have hprimary : ∀ k, dmem pg.entities k = true →
            dmem (updateChildrenRefs
              (processSecondaryEntities pg ctxP ctxS sg.entities
                { entities := initMergedEntities pg, mappings := [], processed := [] }).mappings
              (processSecondaryEntities pg ctxP ctxS sg.entities
                { entities := initMergedEntities pg, mappings := [], processed := [] }).entities)
              k = true := by
          intro k hk
          rw [dmem_updateChildrenRefs]
          apply processSecondaryEntities_dmem
          rw [dmem_initMergedEntities]
          exact List.elem_iff.mpr ((dmem_iff_mem_dkeys pg.entities k).mp hk)
        refine ⟨?_, ?_, ?_⟩
        · intro id e hmem c hc
          rw [dmem_updateChildrenRefs]
          exact updateChildrenRefs_children_dmem hmem hc
        · intro r hr
          rcases mem_mergeRoots _ _ _ _ r hr with h' | h'
          · exact hprimary r (hroots r h')
          · exact h'
        · intro tid t hmem
          refine processSecondaryTransitions_closed _ _ _ _ _ _ hT ?_ tid t hmem
          intro tid₀ t₀ hmem₀
          have hmem₁ : (tid₀, t₀) ∈ (addPrimaryTransitions
              (processSecondaryEntities pg ctxP ctxS sg.entities
                { entities := initMergedEntities pg, mappings := [], processed := [] }).mappings
              pg.transitions ([], [])).1 := by
            rw [hadd]
            exact hmem₀
          rcases addPrimaryTransitions_fst_mem _ _ _ _ hmem₁ with h' | h'
          · simp at h'
          · exact ⟨hprimary _ (htrans (tid₀, t₀) h').1, hprimary _ (htrans (tid₀, t₀) h').2⟩

/-- The merged output of the spec-§8 scenario, used by the C1 witness. -/
def specOut : Graph :=
  { entities :=
      [("dept1", { name := some "Engineering", children := ["team2", "team1"],
                   properties := some [("location", "SF")] }),
       ("team1", { name := some "Frontend", children := ["emp1", "emp3"],
                   properties := some [("tech", "Vue")] }),
       ("team2", { name := some "Backend", children := ["emp2"],
                   properties := some [("tech", "Python")] }),
       ("emp1", { name := some "John", children := [],
                  properties := some [("role", "developer")] }),
       ("emp2", { name := some "Alice", children := [],
                  properties := some [("role", "engineer")] }),
       ("emp3", { name := some "Sarah", children := [],
                  properties := some [("role", "developer")] })],
    transitions :=
      [("t1", { source := "emp1", target := "emp2",
                properties := some [("type", "collaboration")] }),
       ("t2", { source := "team1", target := "emp3",
                properties := some [("type", "management")] })],
    roots := ["dept1"] }

/-- Witness for C1 on the spec-§8 scenario. -/
theorem merge_output_referentially_closed_witness :
    mergeGraphs specPrimary specSecondary = some specOut ∧
    dmem specOut.entities "emp3" = true ∧ dmem specOut.entities "team1" = true := by
  refine ⟨by decide, ?_, ?_⟩
  · exact (merge_output_referentially_closed specPrimary specSecondary specOut
      (by decide) (by decide) (by decide)).2.2 "t2"
      { source := "team1", target := "emp3", properties := some [("type", "management")] }
      (by decide) |>.2
  · exact (merge_output_referentially_closed specPrimary specSecondary specOut
      (by decide) (by decide) (by decide)).1 "dept1"
      { name := some "Engineering", children := ["team2", "team1"],
        properties := some [("location", "SF")] } (by decide) "team1" (by decide)

/-! ### C6 — transition dedup by mapped endpoint pair -/

/-- The key-and-endpoints view of a stored transition (ignoring properties). -/
def epTriple (p : String × Transition) : String × String × String :=
  (p.1, p.2.source, p.2.target)

/-- Key-and-endpoints view of a transitions dict. -/
def epList (l : List (String × Transition)) : List (String × String × String) :=
  l.map epTriple

/-- The signature a stored (already endpoint-mapped) transition answers to. -/
def tripleSig (e : String × String × String) : String :=
  e.2.1 ++ "=>" ++ e.2.2

theorem dinsert_of_not_dmem {β : Type} {d : List (String × β)} {k : String} (v : β)
    (h : dmem d k = false) : dinsert d k v = d ++ [(k, v)] := by
  induction d with
  | nil => simp [dinsert]
  | cons hd tl ih =>
    obtain ⟨k₀, v₀⟩ := hd
    by_cases hk : k₀ = k
    · subst hk
      simp [dmem, dlookup] at h
    · simp only [dmem, dlookup, if_neg hk] at h
      simp only [dinsert, if_neg hk, List.cons_append, List.cons.injEq, true_and]
      exact ih h

theorem dmem_append {β : Type} (d₁ d₂ : List (String × β)) (k : String) :
    dmem (d₁ ++ d₂) k = (dmem d₁ k || dmem d₂ k) := by
  induction d₁ with
  | nil => simp [dmem, dlookup]
  | cons hd tl ih =>
    obtain ⟨k₀, v₀⟩ := hd
    by_cases hk : k₀ = k
    · simp [dmem, dlookup, hk]
    · simp only [List.cons_append, dmem, dlookup, if_neg hk] at *
      exact ih

theorem foldl_dinsert_eq_append {β : Type} (l : List (String × β)) :
    ∀ acc : List (String × β), (dkeys l).Nodup →
      (∀ k, k ∈ dkeys l → dmem acc k = false) →
      l.foldl (fun a p => dinsert a p.1 p.2) acc = acc ++ l := by
  induction l with
  | nil => intro acc _ _; simp
  | cons hd tl ih =>
    intro acc hnd hdisj
    obtain ⟨k₀, v₀⟩ := hd
    simp only [dkeys, List.map_cons, List.nodup_cons] at hnd
    simp only [List.foldl_cons]
    rw [dinsert_of_not_dmem v₀ (hdisj k₀ (by simp [dkeys]))]
    rw [ih (acc ++ [(k₀, v₀)]) hnd.2 ?_]
    · simp
    · intro k hk
      rw [dmem_append]
      have h₁ : dmem acc k = false := hdisj k (by simp [dkeys]; right; simpa [dkeys] using hk)
      have h₂ : dmem [(k₀, v₀)] k = false := by
        simp only [dmem, dlookup]
        have : k₀ ≠ k := by
          intro hc
          subst hc
          exact hnd.1 (by simpa [dkeys] using hk)
        simp [this]
      simp [h₁, h₂]

theorem addPrimaryTransitions_fst (m : List (String × String))
    (l : List (String × Transition)) :
    ∀ mt tmap, (addPrimaryTransitions m l (mt, tmap)).1
      = l.foldl (fun a p => dinsert a p.1 p.2) mt := by
  induction l with
  | nil => intro mt tmap; simp [addPrimaryTransitions]
  | cons hd tl ih =>
    intro mt tmap
    obtain ⟨tid, t⟩ := hd
    simp only [addPrimaryTransitions, List.foldl_cons]
    exact ih _ _

theorem addPrimaryTransitions_tmap_mono (m : List (String × String))
    (l : List (String × Transition)) :
    ∀ mt tmap s, s ∈ dkeys tmap →
      s ∈ dkeys (addPrimaryTransitions m l (mt, tmap)).2 := by
  induction l with
  | nil => intro mt tmap s h; simpa [addPrimaryTransitions] using h
  | cons hd tl ih =>
    intro mt tmap s h
    obtain ⟨tid, t⟩ := hd
    simp only [addPrimaryTransitions]
    apply ih
    rw [← dmem_iff_mem_dkeys] at h ⊢
    exact dmem_of_dmem_dinsert h

theorem addPrimaryTransitions_sig_mem (m : List (String × String))
    (l : List (String × Transition)) :
    ∀ mt tmap p, p ∈ l →
      transitionSignature m p.2.source p.2.target
        ∈ dkeys (addPrimaryTransitions m l (mt, tmap)).2 := by
  induction l with
  | nil => intro mt tmap p h; simp at h
  | cons hd tl ih =>
    intro mt tmap p hp
    obtain ⟨tid, t⟩ := hd
    rcases List.mem_cons.mp hp with h | h
    · subst h
      simp only [addPrimaryTransitions]
      apply addPrimaryTransitions_tmap_mono
      rw [← dmem_iff_mem_dkeys, dmem_dinsert]
      simp
    · simp only [addPrimaryTransitions]
      exact ih _ _ p h

theorem freshTransId_not_mem {tid : String} {taken : List String} {nid : String}
    (h : freshTransId tid taken = some nid) : nid ∉ taken := by
  unfold freshTransId at h
  by_cases hc : taken.contains tid = true
  · rw [if_pos hc] at h
    simp at h
    exact h.2 ▸ h.1
  · rw [if_neg hc] at h
    simp only [Option.some.injEq] at h
    subst h
    intro hmem
    exact hc (by simpa using hmem)

theorem not_mem_dkeys_of_dlookup_none {β : Type} {d : List (String × β)} {k : String}
    (h : dlookup d k = none) : k ∉ dkeys d := by
  intro hc
  have := (dmem_iff_mem_dkeys d k).mpr hc
  simp [dmem, h] at this

theorem dkeys_dinsert_not_dmem {β : Type} {d : List (String × β)} {k : String} (v : β)
    (h : dmem d k = false) : dkeys (dinsert d k v) = dkeys d ++ [k] := by
  rw [dinsert_of_not_dmem v h]
  simp [dkeys]

theorem epList_dinsert_props {mt : List (String × Transition)} {k : String}
    {et : Transition} (hlk : dlookup mt k = some et) (ps : Option PropMap) :
    epList (dinsert mt k { et with properties := ps }) = epList mt := by
  induction mt with
  | nil => simp [dlookup] at hlk
  | cons hd tl ih =>
    obtain ⟨k₀, t₀⟩ := hd
    by_cases hk : k₀ = k
    · subst hk
      simp [dlookup] at hlk
      subst hlk
      simp [dinsert, epList, epTriple]
    · simp only [dlookup, if_neg hk] at hlk
      simp only [dinsert, if_neg hk, epList, List.map_cons]
      have h := ih hlk
      simp only [epList] at h
      rw [h]

theorem processSecondaryTransitions_dedup (m : List (String × String))
    (es : List (String × Entity)) (ts : List (String × Transition)) :
    ∀ (mt : List (String × Transition)) (tmap : List (String × String))
      (out : List (String × Transition)),
      processSecondaryTransitions m es ts mt tmap = some out →
      ∃ ins : List (String × String × String),
        epList out = epList mt ++ ins ∧
        (∀ e, e ∈ ins → tripleSig e ∉ dkeys tmap ∧ e.1 ∉ dkeys mt ∧
          dmem es e.2.1 = true ∧ dmem es e.2.2 = true) ∧
        (ins.map tripleSig).Nodup ∧ (ins.map Prod.fst).Nodup := by
  induction ts with
  | nil =>
    intro mt tmap out hrun
    simp only [processSecondaryTransitions, Option.some.injEq] at hrun
    subst hrun
    exact ⟨[], by simp, by simp, by simp, by simp⟩
  | cons hd tl ih =>
    intro mt tmap out hrun
    obtain ⟨tid₀, t₀⟩ := hd
    simp only [processSecondaryTransitions] at hrun
    cases hstep : transStep m es mt tmap tid₀ t₀ with
    | none => rw [hstep] at hrun; exact absurd hrun (by simp)
    | some pr =>
      obtain ⟨mt', tmap'⟩ := pr
      rw [hstep] at hrun
      unfold transStep at hstep
      cases hsig : dlookup tmap (transitionSignature m t₀.source t₀.target) with
      | some eid =>
        simp only [hsig] at hstep
        cases hle : dlookup mt eid with
        | none => simp [hle] at hstep
        | some et =>
          simp only [hle] at hstep
          cases hps : et.properties with
          | none => simp [hps] at hstep
          | some ps =>
            simp only [hps, Option.some.injEq, Prod.mk.injEq] at hstep
            obtain ⟨hmt', htmap'⟩ := hstep
            obtain ⟨ins, hout, hcond, hnds, hndi⟩ := ih mt' tmap' out hrun
            refine ⟨ins, ?_, ?_, hnds, hndi⟩
            · rw [hout, ← hmt', epList_dinsert_props hle _]
            · intro e he
              obtain ⟨h1, h2, h3, h4⟩ := hcond e he
              rw [← htmap'] at h1
              rw [← hmt'] at h2
              refine ⟨h1, ?_, h3, h4⟩
              rw [dkeys_dinsert_of_dmem _ (by simp [dmem, hle])] at h2
              exact h2
      | none =>
        simp only [hsig] at hstep
        by_cases hg : (dmem es (mapId m t₀.source) && dmem es (mapId m t₀.target)) = true
        · rw [if_pos hg] at hstep
          cases hf : freshTransId tid₀ (dkeys mt) with
          | none => simp [hf] at hstep
          | some nid =>
            simp only [hf, Option.some.injEq, Prod.mk.injEq] at hstep
            obtain ⟨hmt', htmap'⟩ := hstep
            obtain ⟨ins, hout, hcond, hnds, hndi⟩ := ih mt' tmap' out hrun
            have hnidfresh : nid ∉ dkeys mt := freshTransId_not_mem hf
            have hnidmem : dmem mt nid = false := by
              by_contra hc
              exact hnidfresh ((dmem_iff_mem_dkeys mt nid).mp (by simpa using hc))
            refine ⟨(nid, mapId m t₀.source, mapId m t₀.target) :: ins, ?_, ?_, ?_, ?_⟩
            · rw [hout, ← hmt', dinsert_of_not_dmem _ hnidmem]
              simp [epList, epTriple]
            · intro e he
              rcases List.mem_cons.mp he with he' | he'
              · subst he'
                refine ⟨?_, hnidfresh, ?_, ?_⟩
                · exact not_mem_dkeys_of_dlookup_none hsig
                · exact ((Bool.and_eq_true _ _).mp hg).1
                · exact ((Bool.and_eq_true _ _).mp hg).2
              · obtain ⟨h1, h2, h3, h4⟩ := hcond e he'
                rw [← htmap'] at h1
                rw [← hmt'] at h2
                rw [dkeys_dinsert_not_dmem _ hnidmem] at h2
                refine ⟨?_, ?_, h3, h4⟩
                · intro hc
                  exact h1 (by
                    rw [← dmem_iff_mem_dkeys, dmem_dinsert]
                    rw [← dmem_iff_mem_dkeys] at hc
                    simp [hc])
                · intro hc
                  exact h2 (List.mem_append_left _ hc)
            · simp only [List.map_cons, List.nodup_cons]
              refine ⟨?_, hnds⟩
              intro hc
              obtain ⟨e, he, hesig⟩ := List.mem_map.mp hc
              obtain ⟨h1, _, _, _⟩ := hcond e he
              apply h1
              rw [← htmap', hesig]
              have hts : tripleSig (nid, mapId m t₀.source, mapId m t₀.target)
                  = transitionSignature m t₀.source t₀.target := rfl
              rw [hts, ← dmem_iff_mem_dkeys, dmem_dinsert]
              simp
            · simp only [List.map_cons, List.nodup_cons]
              refine ⟨?_, hndi⟩
              intro hc
              obtain ⟨e, he, heid⟩ := List.mem_map.mp hc
              obtain ⟨_, h2, _, _⟩ := hcond e he
              apply h2
              rw [← hmt', dkeys_dinsert_not_dmem _ hnidmem, heid]
              simp
        · rw [if_neg hg] at hstep
          simp only [Option.some.injEq, Prod.mk.injEq] at hstep
          obtain ⟨hmt', htmap'⟩ := hstep
          obtain ⟨ins, hout, hcond, hnds, hndi⟩ := ih mt' tmap' out hrun
          rw [← hmt', ← htmap'] at *
          exact ⟨ins, hout, hcond, hnds, hndi⟩

/-- **C6 (amended).** Whenever `merge_graphs` of `dict_merger_optimized_v3.py`
returns, the output transitions are the primary transitions — preserved with
their keys and endpoint pairs, duplicates included, only their properties
possibly extended by signature-matched secondary transitions — followed by
transitions inserted from the secondary graph; every inserted transition
carries a signature distinct from every primary transition's mapped signature
and from every other inserted transition's (matched signatures are
property-merged, never re-inserted), a fresh id, and endpoints mapped through
the ID map that are keys of the merged entities. Duplicate `(source, target)`
pairs already among the *primary* transitions are not deduplicated (see the
counterexample). -/
theorem merge_secondary_transition_dedup
    (pg sg out : Graph) (idMap : List (String × String))
    (hk : (dkeys pg.transitions).Nodup)
    (hm : mergeGraphsCore pg sg = some (out, idMap)) :
    ∃ ins : List (String × String × String),
      epList out.transitions = epList pg.transitions ++ ins ∧
      (∀ e, e ∈ ins →
        (∀ p ∈ pg.transitions,
          tripleSig e ≠ transitionSignature idMap (Prod.snd p).source (Prod.snd p).target) ∧
        e.1 ∉ dkeys pg.transitions ∧
        dmem out.entities e.2.1 = true ∧ dmem out.entities e.2.2 = true) ∧
      (ins.map tripleSig).Nodup ∧ (ins.map Prod.fst).Nodup := by
  simp only [mergeGraphsCore] at hm
  cases hP : buildGraphContext pg (pg.entities.length + 1) with
  | none => simp [hP] at hm
  | some ctxP =>
    cases hS : buildGraphContext sg (sg.entities.length + 1) with
    | none => simp [hP, hS] at hm
    | some ctxS =>
      simp only [hP, hS] at hm
      rcases hadd : addPrimaryTransitions
        (processSecondaryEntities pg ctxP ctxS sg.entities
          { entities := initMergedEntities pg, mappings := [], processed := [] }).mappings
        pg.transitions ([], []) with ⟨mt, tmap⟩
      rw [hadd] at hm
      cases hT : processSecondaryTransitions
        (processSecondaryEntities pg ctxP ctxS sg.entities
          { entities := initMergedEntities pg, mappings := [], processed := [] }).mappings
        (updateChildrenRefs
          (processSecondaryEntities pg ctxP ctxS sg.entities
            { entities := initMergedEntities pg, mappings := [], processed := [] }).mappings
          (processSecondaryEntities pg ctxP ctxS sg.entities
            { entities := initMergedEntities pg, mappings := [], processed := [] }).entities)
        sg.transitions mt tmap with
      | none => rw [hT] at hm; exact absurd hm (by simp)
      | some mt' =>
        rw [hT] at hm
        simp only [Option.some.injEq, Prod.mk.injEq] at hm
        obtain ⟨hout, hmap⟩ := hm
        have hmt : mt = pg.transitions := by
          have h1 : (addPrimaryTransitions
              (processSecondaryEntities pg ctxP ctxS sg.entities
                { entities := initMergedEntities pg, mappings := [], processed := [] }).mappings
              pg.transitions ([], [])).1 = mt := by rw [hadd]
          rw [addPrimaryTransitions_fst] at h1
          rw [← h1]
          exact foldl_dinsert_eq_append pg.transitions [] hk (by simp [dmem, dlookup])
            |>.trans (by simp)
        obtain ⟨ins, hinsout, hcond, hnds, hndi⟩ :=
          processSecondaryTransitions_dedup _ _ sg.transitions mt tmap mt' hT
        refine ⟨ins, ?_, ?_, hnds, hndi⟩
        · rw [← hout]
          simpa [hmt] using hinsout
        · intro e he
          obtain ⟨h1, h2, h3, h4⟩ := hcond e he
          refine ⟨?_, by rwa [hmt] at h2, by rw [← hout]; exact h3, by rw [← hout]; exact h4⟩
          intro p hp hc
          apply h1
          have h5 : (addPrimaryTransitions
              (processSecondaryEntities pg ctxP ctxS sg.entities
                { entities := initMergedEntities pg, mappings := [], processed := [] }).mappings
              pg.transitions ([], [])).2 = tmap := by rw [hadd]
          rw [hc, ← hmap, ← h5]
          exact addPrimaryTransitions_sig_mem _ pg.transitions [] [] p hp

/-- The ID map of the spec-§8 merge, used by the C6 witness. -/
def specMap : List (String × String) := [("dept2", "dept1"), ("team3", "team1")]

/-- Witness for C6 on the spec-§8 scenario: `t2` is inserted with remapped
endpoints and a signature unlike any primary one; `t1` survives untouched. -/
theorem merge_secondary_transition_dedup_witness :
    (dkeys specPrimary.transitions).Nodup ∧
    mergeGraphsCore specPrimary specSecondary = some (specOut, specMap) ∧
    (∃ ins : List (String × String × String),
      epList specOut.transitions = epList specPrimary.transitions ++ ins ∧
      (∀ e, e ∈ ins →
        (∀ p ∈ specPrimary.transitions,
          tripleSig e ≠ transitionSignature specMap (Prod.snd p).source (Prod.snd p).target) ∧
        e.1 ∉ dkeys specPrimary.transitions ∧
        dmem specOut.entities e.2.1 = true ∧ dmem specOut.entities e.2.2 = true) ∧
      (ins.map tripleSig).Nodup ∧ (ins.map Prod.fst).Nodup) := by
  refine ⟨by decide, by decide, ?_⟩
  exact merge_secondary_transition_dedup specPrimary specSecondary specOut specMap
    (by decide) (by decide)

/-! ### C9 — termination of index construction -/

theorem length_filter_lt_of_mem_not {l : List String} {p : String → Bool} {x : String}
    (hx : x ∈ l) (hpx : p x = false) : (l.filter p).length < l.length := by
  induction l with
  | nil => simp at hx
  | cons a tl ih =>
    rcases List.mem_cons.mp hx with h | h
    · have hpa : p a = false := h ▸ hpx
      rw [List.filter_cons_of_neg (by simp [hpa])]
      have hle := List.length_filter_le p tl
      simp only [List.length_cons]
      omega
    · by_cases hpa : p a = true
      · rw [List.filter_cons_of_pos hpa]
        simpa using ih h
      · rw [List.filter_cons_of_neg (by simpa using hpa)]
        have hlt := ih h
        simp only [List.length_cons]
        omega

theorem rrMeasure_decreases (info : List (String × RRInfo)) (visited : List String)
    (id : String) (hmem : id ∈ dkeys info) (hnv : id ∉ visited) :
    rrMeasure info (id :: visited) < rrMeasure info visited := by
  unfold rrMeasure
  have heq : (dkeys info).filter (fun x => !((id :: visited).contains x))
      = ((dkeys info).filter (fun x => !(visited.contains x))).filter (fun x => !(x == id)) := by
    rw [List.filter_filter]
    apply List.filter_congr
    intro x _
    simp only [List.contains_cons, Bool.not_or]
  rw [heq]
  apply length_filter_lt_of_mem_not
  · exact List.mem_filter.mpr ⟨hmem, by simpa using hnv⟩
  · simp

theorem buildPathRR_no_fuelOut (info : List (String × RRInfo)) :
    ∀ (fuel : Nat) (visited : List String) (id : String),
      rrMeasure info visited < fuel →
      buildPathRR info fuel visited id ≠ RRResult.fuelOut := by
  intro fuel
  induction fuel with
  | zero =>
    intro visited id h
    exact absurd h (by omega)
  | succ n ih =>
    intro visited id h
    simp only [buildPathRR]
    split
    · simp
    · next hnv =>
      cases hl : dlookup info id with
      | none => simp
      | some i =>
        simp only []
        cases hp : i.parentId with
        | none => simp
        | some p =>
          have hmem : id ∈ dkeys info := List.mem_map.mpr ⟨(id, i), dlookup_mem hl, rfl⟩
          have hdec : rrMeasure info (id :: visited) < n := by
            have := rrMeasure_decreases info visited id hmem hnv
            omega
          have hrec := ih (id :: visited) p hdec
          cases hr : buildPathRR info n (id :: visited) p with
          | fuelOut => exact absurd hr hrec
          | keyErr => simp [hr]
          | ok pp pl => simp [hr]

/-- **C9 (amended).** The `build_path` index construction of the
*runtime-reduced* variant terminates for every input — with fuel above the
number of unvisited indexed entities the recursion never runs out, including
on cyclic or multi-parent `parent_id` tables — and an entity reached a second
time along a chain is skipped (with a logged warning) rather than
re-processed, yielding `([], 0)`. In the `dict_merger_optimized_v3.py`
variant, by contrast, `build_graph_context` re-processes re-discovered
entities (latest, deepest discovery wins) and recurses unboundedly on cyclic
`children` (see the counterexample). -/
theorem buildPathRR_terminates_and_skips :
    (∀ (info : List (String × RRInfo)) (fuel : Nat) (visited : List String) (id : String),
        rrMeasure info visited < fuel →
        buildPathRR info fuel visited id ≠ RRResult.fuelOut) ∧
    (∀ (info : List (String × RRInfo)) (fuel : Nat) (visited : List String) (id : String),
        id ∈ visited → buildPathRR info (fuel + 1) visited id = RRResult.ok [] 0) := by
  constructor
  · intro info fuel visited id h
    exact buildPathRR_no_fuelOut info fuel visited id h
  · intro info fuel visited id h
    simp [buildPathRR, h]

/-- Witness for C9 on the concrete cyclic parent table `a ↔ b`: the
construction completes within the measure bound, and a visited entity is
skipped with the `([], 0)` result. -/
theorem buildPathRR_terminates_and_skips_witness :
    (rrMeasure cyclicInfo [] < 3 ∧ buildPathRR cyclicInfo 3 [] "a" ≠ RRResult.fuelOut) ∧
    ("x" ∈ ["x"] ∧ buildPathRR cyclicInfo 5 ["x"] "x" = RRResult.ok [] 0) := by
  exact ⟨⟨by decide, buildPathRR_terminates_and_skips.1 cyclicInfo 3 [] "a" (by decide)⟩,
         ⟨by decide, buildPathRR_terminates_and_skips.2 cyclicInfo 4 ["x"] "x" (by decide)⟩⟩

/-- Counterexample to **C9** as stated: in `build_graph_context` of
`dict_merger_optimized_v3.py` the multi-parent entity `e` is *re-processed*
on its second discovery, and the deepest discovery — level 2 below parent `a`
— overwrites the shallowest one (level 1 below the root `r`), contradicting
"skipped on the second visitation" and "the shallowest discovery wins". -/
theorem buildGraphContext_reprocesses_deepest_wins :
    (buildGraphContext multiParentGraph 4).map (fun c => dlookup c.entityPaths "e")
      = some (some { entityId := "e", name := "e", fullPath := "r/a/e", level := 2,
                     parentId := some "a", rootId := "r" }) ∧ (2 : Nat) ≠ 1 := by
  exact ⟨by decide, by decide⟩

/-! ### Further pipeline characterizations (children pass, roots, transitions) -/

theorem dlookup_map_val {β : Type} (f : β → β) (l : List (String × β)) (k : String) :
    dlookup (l.map (fun p => (p.1, f p.2))) k = (dlookup l k).map f := by
  induction l with
  | nil => simp [dlookup]
  | cons hd tl ih =>
    obtain ⟨k₀, v₀⟩ := hd
    by_cases hk : k₀ = k <;> simp [dlookup, hk, ih]

/-- The per-entity transform applied by the children-update pass. -/
def childFix (m : List (String × String)) (es : List (String × Entity)) (e : Entity) :
    Entity :=
  { e with children := List.dedup (e.children.filterMap (fun c =>
      if dmem es (mapId m c) then some (mapId m c) else none)) }

theorem updateChildrenRefs_eq_map (m : List (String × String))
    (es : List (String × Entity)) :
    updateChildrenRefs m es = es.map (fun p => (p.1, childFix m es p.2)) := rfl

theorem mem_mergeRoots_strong (m : List (String × String))
    (es : List (String × Entity)) (sr : List String) (acc : List String) (r : String)
    (h : r ∈ sr.foldl (fun acc x =>
      let mx := mapId m x
      if dmem es mx && !(acc.contains mx) then acc ++ [mx] else acc) acc) :
    r ∈ acc ∨ ∃ r₀, r₀ ∈ sr ∧ r = mapId m r₀ := by
  induction sr generalizing acc with
  | nil => left; simpa using h
  | cons hd tl ih =>
    simp only [List.foldl_cons] at h
    rcases ih _ h with h' | h'
    · revert h'
      split
      · intro h'
        rcases List.mem_append.mp h' with h'' | h''
        · left; exact h''
        · right
          exact ⟨hd, by simp, by simpa using h''⟩
      · intro h'
        left; exact h'
    · obtain ⟨r₀, hr₀, hr⟩ := h'
      right
      exact ⟨r₀, List.mem_cons_of_mem _ hr₀, hr⟩

/-- Soundness of `transition_map` relative to the merged transitions: every
recorded id points at a stored transition that has a `properties` dict. -/
def transMapOk (mt : List (String × Transition)) (tmap : List (String × String)) : Prop :=
  ∀ s eid, dlookup tmap s = some eid →
    ∃ t, dlookup mt eid = some t ∧ (t.properties).isSome = true

theorem addPrimaryTransitions_ok (m : List (String × String))
    (l : List (String × Transition))
    (hl : ∀ p ∈ l, ((Prod.snd p).properties).isSome = true) :
    ∀ mt tmap, transMapOk mt tmap →
      transMapOk (addPrimaryTransitions m l (mt, tmap)).1
        (addPrimaryTransitions m l (mt, tmap)).2 := by
  induction l with
  | nil => intro mt tmap h; simpa [addPrimaryTransitions] using h
  | cons hd tl ih =>
    intro mt tmap hok
    obtain ⟨tid, t⟩ := hd
    simp only [addPrimaryTransitions]
    apply ih (fun p hp => hl p (List.mem_cons_of_mem _ hp))
    intro s eid hs
    by_cases hsig : transitionSignature m t.source t.target = s
    · subst hsig
      rw [dlookup_dinsert_self] at hs
      cases hs
      exact ⟨t, dlookup_dinsert_self mt tid t, hl (tid, t) (by simp)⟩
    · rw [dlookup_dinsert_ne tmap _ s tid hsig] at hs
      obtain ⟨t', ht', hp'⟩ := hok s eid hs
      by_cases heid : tid = eid
      · subst heid
        exact ⟨t, dlookup_dinsert_self mt tid t, hl (tid, t) (by simp)⟩
      · exact ⟨t', by rw [dlookup_dinsert_ne mt tid eid t heid]; exact ht', hp'⟩

theorem transStep_eq_merge {m : List (String × String)} {es : List (String × Entity)}
    {mt : List (String × Transition)} {tmap : List (String × String)}
    {tid : String} {t : Transition} {eid : String} {et : Transition} {ps : PropMap}
    (hsig : dlookup tmap (transitionSignature m t.source t.target) = some eid)
    (hle : dlookup mt eid = some et) (hps : et.properties = some ps) :
    transStep m es mt tmap tid t =
      some (dinsert mt eid
        { et with properties := some (dupdate ps (t.properties.getD [])) }, tmap) := by
  unfold transStep
  simp only [hsig, hle, hps]

theorem processSecondaryTransitions_all_matched (m : List (String × String))
    (es : List (String × Entity)) (ts : List (String × Transition)) :
    ∀ mt tmap, transMapOk mt tmap →
      (∀ p ∈ ts, dmem tmap
        (transitionSignature m (Prod.snd p).source (Prod.snd p).target) = true) →
      ∃ mtOut, processSecondaryTransitions m es ts mt tmap = some mtOut ∧
        epList mtOut = epList mt := by
  induction ts with
  | nil =>
    intro mt tmap _ _
    exact ⟨mt, by simp [processSecondaryTransitions], rfl⟩
  | cons hd tl ih =>
    intro mt tmap hok hts
    obtain ⟨tid, t⟩ := hd
    have hsigmem := hts (tid, t) (by simp)
    simp only [dmem] at hsigmem
    cases hsig : dlookup tmap (transitionSignature m t.source t.target) with
    | none => rw [hsig] at hsigmem; simp at hsigmem
    | some eid =>
      obtain ⟨et, hle, hps'⟩ := hok _ eid hsig
      obtain ⟨ps, hps⟩ := Option.isSome_iff_exists.mp hps'
      have hok' : transMapOk (dinsert mt eid
          { et with properties := some (dupdate ps (t.properties.getD [])) }) tmap := by
        intro s eid' hs
        obtain ⟨t', ht', hp'⟩ := hok s eid' hs
        by_cases heid : eid = eid'
        · subst heid
          refine ⟨{ et with properties := some (dupdate ps (t.properties.getD [])) },
            dlookup_dinsert_self _ _ _, by simp⟩
        · exact ⟨t', by rw [dlookup_dinsert_ne mt eid eid' _ heid]; exact ht', hp'⟩
      obtain ⟨mtOut, hrun, hep⟩ := ih _ tmap hok'
        (fun p hp => hts p (List.mem_cons_of_mem _ hp))
      refine ⟨mtOut, ?_, ?_⟩
      · simp only [processSecondaryTransitions, transStep_eq_merge hsig hle hps]
        exact hrun
      · rw [hep, epList_dinsert_props hle]

theorem initMergedEntities_eq (g : Graph) (h : (dkeys g.entities).Nodup) :
    initMergedEntities g = g.entities := by
  unfold initMergedEntities
  rw [foldl_dinsert_eq_append g.entities [] h (by intro k _; simp [dmem, dlookup])]
  simp

/-! ### C5 — idempotence of merging a graph with itself -/

/-- **C5 (amended).** `merge(G, G)` in `dict_merger_optimized_v3.py` preserves
`G` whenever `G` is well-formed (unique entity and transition keys, children
pointing at entities, property dicts with unique keys, transitions carrying a
`properties` dict) *and* its path index is self-identifying — every indexed
entity's full path looks itself up in `path_to_id` (no two reachable entities
share a normalized name path). Then the merged graph has the same entity key
list, property lookups and children sets unchanged on every entity, the same
root set, and the same transition keys and endpoint pairs. Without the
self-identification hypothesis the claim fails (see the counterexample, where
a duplicated sibling name makes one twin absorb the other's properties). -/
theorem merge_self_idempotent
    (g out : Graph) (ctx : MergeContext)
    (hctx : buildGraphContext g (g.entities.length + 1) = some ctx)
    (hsm : ∀ q ∈ ctx.entityPaths, dlookup ctx.pathToId (Prod.snd q).fullPath
      = some (Prod.fst q))
    (hke : (dkeys g.entities).Nodup)
    (hkt : (dkeys g.transitions).Nodup)
    (hprops : ∀ p ∈ g.entities, (dkeys ((Prod.snd p).properties.getD [])).Nodup)
    (hchild : ∀ p ∈ g.entities, ∀ c ∈ (Prod.snd p).children, dmem g.entities c = true)
    (htp : ∀ p ∈ g.transitions, ((Prod.snd p).properties).isSome = true)
    (hm : mergeGraphs g g = some out) :
    dkeys out.entities = dkeys g.entities ∧
    (∀ id e, dlookup g.entities id = some e →
      ∃ v, dlookup out.entities id = some v ∧
        (∀ k, dlookup (v.properties.getD []) k = dlookup (e.properties.getD []) k) ∧
        (∀ c, c ∈ v.children ↔ c ∈ e.children)) ∧
    (∀ r, r ∈ out.roots ↔ r ∈ g.roots) ∧
    epList out.transitions = epList g.transitions := by
  simp only [mergeGraphs, mergeGraphsCore] at hm
  rw [hctx] at hm
  simp only [] at hm
  rcases hadd : addPrimaryTransitions
    (processSecondaryEntities g ctx ctx g.entities
      { entities := initMergedEntities g, mappings := [], processed := [] }).mappings
    g.transitions ([], []) with ⟨mt, tmap⟩
  rw [hadd] at hm
  cases hT : processSecondaryTransitions
    (processSecondaryEntities g ctx ctx g.entities
      { entities := initMergedEntities g, mappings := [], processed := [] }).mappings
    (updateChildrenRefs
      (processSecondaryEntities g ctx ctx g.entities
        { entities := initMergedEntities g, mappings := [], processed := [] }).mappings
      (processSecondaryEntities g ctx ctx g.entities
        { entities := initMergedEntities g, mappings := [], processed := [] }).entities)
    g.transitions mt tmap with
  | none => rw [hT] at hm; exact absurd hm (by simp)
  | some mt' =>
    rw [hT] at hm
    simp only [Option.map_some', Option.some.injEq] at hm
    subst hm
    have hinit : initMergedEntities g = g.entities := initMergedEntities_eq g hke
    have hfold := selfmerge_fold g ctx ctx g.entities
      { entities := initMergedEntities g, mappings := [], processed := [] }
      hke (by simp) hprops
      (fun p _ => findMatchingEntity_self g ctx p.1 p.2 hsm)
      (by
        intro p hp
        rw [hinit]
        exact dlookup_of_nodup_mem hke hp)
      (by simp)
    obtain ⟨hmapid, hkeys, hvals⟩ := hfold
    have hmapidfun : ∀ c, mapId (processSecondaryEntities g ctx ctx g.entities
        { entities := initMergedEntities g, mappings := [], processed := [] }).mappings c
        = c := fun c => mapId_identity hmapid c
    have hdmemeq : ∀ c, dmem (processSecondaryEntities g ctx ctx g.entities
        { entities := initMergedEntities g, mappings := [], processed := [] }).entities c
        = dmem g.entities c := by
      intro c
      have h1 := dmem_iff_mem_dkeys (processSecondaryEntities g ctx ctx g.entities
        { entities := initMergedEntities g, mappings := [], processed := [] }).entities c
      have h2 := dmem_iff_mem_dkeys g.entities c
      rw [hkeys] at h1
      nth_rewrite 2 [hinit] at h1
      cases hb : dmem g.entities c with
      | true => exact h1.mpr (h2.mp hb)
      | false =>
        cases hb2 : dmem (processSecondaryEntities g ctx ctx g.entities
            { entities := initMergedEntities g, mappings := [], processed := [] }).entities c with
        | true => exact absurd (h2.mpr (h1.mp hb2)) (by simp [hb])
        | false => rfl
    refine ⟨?_, ?_, ?_, ?_⟩
    · rw [updateChildrenRefs_eq_map]
      rw [show dkeys ((processSecondaryEntities g ctx ctx g.entities
          { entities := initMergedEntities g, mappings := [], processed := [] }).entities.map
            (fun p => (p.1, childFix
              (processSecondaryEntities g ctx ctx g.entities
                { entities := initMergedEntities g, mappings := [], processed := [] }).mappings
              (processSecondaryEntities g ctx ctx g.entities
                { entities := initMergedEntities g, mappings := [], processed := [] }).entities
              p.2)))
          = dkeys (processSecondaryEntities g ctx ctx g.entities
            { entities := initMergedEntities g, mappings := [], processed := [] }).entities
        from dkeys_map_val _ _]
      rw [hkeys]
      exact congrArg dkeys hinit
    · intro id e he
      obtain ⟨v, hv, hvl⟩ := hvals id e (by rw [hinit]; exact he)
      refine ⟨childFix
        (processSecondaryEntities g ctx ctx g.entities
          { entities := initMergedEntities g, mappings := [], processed := [] }).mappings
        (processSecondaryEntities g ctx ctx g.entities
          { entities := initMergedEntities g, mappings := [], processed := [] }).entities
        v, ?_, ?_, ?_⟩
      · rw [updateChildrenRefs_eq_map, dlookup_map_val, hv]
        rfl
      · intro k
        exact hvl.1 k
      · intro c
        simp only [childFix, List.mem_dedup, List.mem_filterMap]
        constructor
        · rintro ⟨c₀, hc₀, hf⟩
          rw [hmapidfun c₀] at hf
          by_cases hd : dmem (processSecondaryEntities g ctx ctx g.entities
              { entities := initMergedEntities g, mappings := [], processed := [] }).entities c₀ = true
          · rw [if_pos hd] at hf
            have hcc : c₀ = c := by injection hf
            rw [← hcc]
            exact (hvl.2 c₀).mp hc₀
          · rw [if_neg hd] at hf
            exact absurd hf (by simp)
        · intro hc
          refine ⟨c, (hvl.2 c).mpr hc, ?_⟩
          rw [hmapidfun c]
          rw [hdmemeq c, hchild (id, e) (dlookup_mem he) c hc]
          simp
    · intro r
      constructor
      · intro hr
        rcases mem_mergeRoots_strong _ _ _ _ r hr with h' | h'
        · exact List.mem_dedup.mp h'
        · obtain ⟨r₀, hr₀, hr'⟩ := h'
          rw [hmapidfun r₀] at hr'
          exact hr' ▸ hr₀
      · intro hr
        exact mem_mergeRoots_of_mem_primary _ _ g.roots g.roots r hr
    · have hmt : mt = g.transitions := by
        have h1 : (addPrimaryTransitions
            (processSecondaryEntities g ctx ctx g.entities
              { entities := initMergedEntities g, mappings := [], processed := [] }).mappings
            g.transitions ([], [])).1 = mt := by rw [hadd]
        rw [addPrimaryTransitions_fst] at h1
        rw [← h1]
        exact (foldl_dinsert_eq_append g.transitions [] hkt
          (by intro k _; simp [dmem, dlookup])).trans (by simp)
      have hokinit : transMapOk ([] : List (String × Transition)) [] := by
        intro s eid hs
        simp [dlookup] at hs
      have hok := addPrimaryTransitions_ok
        (processSecondaryEntities g ctx ctx g.entities
          { entities := initMergedEntities g, mappings := [], processed := [] }).mappings
        g.transitions htp [] [] hokinit
      rw [hadd] at hok
      have hts : ∀ p ∈ g.transitions, dmem tmap
          (transitionSignature
            (processSecondaryEntities g ctx ctx g.entities
              { entities := initMergedEntities g, mappings := [], processed := [] }).mappings
            (Prod.snd p).source (Prod.snd p).target) = true := by
        intro p hp
        have := addPrimaryTransitions_sig_mem
          (processSecondaryEntities g ctx ctx g.entities
            { entities := initMergedEntities g, mappings := [], processed := [] }).mappings
          g.transitions [] [] p hp
        rw [hadd] at this
        exact (dmem_iff_mem_dkeys _ _).mpr this
      obtain ⟨mtOut, hrun, hep⟩ := processSecondaryTransitions_all_matched
        (processSecondaryEntities g ctx ctx g.entities
          { entities := initMergedEntities g, mappings := [], processed := [] }).mappings
        (updateChildrenRefs
          (processSecondaryEntities g ctx ctx g.entities
            { entities := initMergedEntities g, mappings := [], processed := [] }).mappings
          (processSecondaryEntities g ctx ctx g.entities
            { entities := initMergedEntities g, mappings := [], processed := [] }).entities)
        g.transitions mt tmap hok hts
      rw [hT] at hrun
      cases hrun
      rw [hep, hmt]

/-- The context the merger builds for `specPrimary` (self-merge scenario). -/
def c5Ctx : MergeContext :=
  (buildGraphContext specPrimary (specPrimary.entities.length + 1)).getD
    { entityPaths := [], pathToId := [] }

/-- The result of merging `specPrimary` with itself. -/
def c5Out : Graph := (mergeGraphs specPrimary specPrimary).getD emptyGraph

theorem merge_self_idempotent_witness :
    dkeys c5Out.entities = dkeys specPrimary.entities ∧
    (∀ id e, dlookup specPrimary.entities id = some e →
      ∃ v, dlookup c5Out.entities id = some v ∧
        (∀ k, dlookup (v.properties.getD []) k = dlookup (e.properties.getD []) k) ∧
        (∀ c, c ∈ v.children ↔ c ∈ e.children)) ∧
    (∀ r, r ∈ c5Out.roots ↔ r ∈ specPrimary.roots) ∧
    epList c5Out.transitions = epList specPrimary.transitions :=
  merge_self_idempotent specPrimary c5Out c5Ctx (by decide) (by decide) (by decide)
    (by decide) (by decide) (by decide) (by decide) (by decide)

/-! ### C3 — children of a matched pair after the reference pass -/

theorem fst_mem_dkeys {β : Type} {l : List (String × β)} {p : String × β}
    (h : p ∈ l) : Prod.fst p ∈ dkeys l :=
  List.mem_map.mpr ⟨p, h, rfl⟩

theorem secStep_entities_lookup_ne (pg : Graph) (cP cS : MergeContext) (st : MergeState)
    (id : String) (ent : Entity) (m₀ : String) (hid : id ≠ m₀)
    (hf : findMatchingEntity pg cP cS id ent ≠ some m₀) :
    dlookup (secStep pg cP cS st id ent).entities m₀ = dlookup st.entities m₀ := by
  cases hfm : findMatchingEntity pg cP cS id ent with
  | none =>
    rw [secStep_eq_add_of_none hfm]
    exact dlookup_dinsert_ne st.entities id m₀ ent hid
  | some mid =>
    have hmid : mid ≠ m₀ := fun h => hf (h ▸ hfm)
    cases hlk : dlookup st.entities mid with
    | none =>
      rw [secStep_eq_add_of_absent hfm hlk]
      exact dlookup_dinsert_ne st.entities id m₀ ent hid
    | some cur =>
      by_cases hmide : mid = ""
      · subst hmide
        rw [secStep_eq_add_of_empty hfm hlk]
        exact dlookup_dinsert_ne st.entities id m₀ ent hid
      · rw [secStep_eq_merge hfm hlk hmide]
        exact dlookup_dinsert_ne st.entities mid m₀ _ hmid

theorem secStep_mappings_lookup_ne (pg : Graph) (cP cS : MergeContext) (st : MergeState)
    (id : String) (ent : Entity) (c : String) (hid : id ≠ c) :
    dlookup (secStep pg cP cS st id ent).mappings c = dlookup st.mappings c := by
  unfold secStep
  split
  · split
    · split
      · rfl
      · exact dlookup_dinsert_ne st.mappings id c _ hid
    · rfl
  · rfl

theorem secStep_mappings_dmem (pg : Graph) (cP cS : MergeContext) (st : MergeState)
    (id : String) (ent : Entity) (k : String)
    (h : dmem (secStep pg cP cS st id ent).mappings k = true) :
    dmem st.mappings k = true ∨ k = id := by
  unfold secStep at h
  split at h
  · split at h
    · split at h
      · exact Or.inl h
      · simp only [dmem_dinsert, Bool.or_eq_true, decide_eq_true_eq] at h
        rcases h with h | h
        · exact Or.inl h
        · exact Or.inr h.symm
    · exact Or.inl h
  · exact Or.inl h

theorem secStep_invariant (pg : Graph) (cP cS : MergeContext) (st : MergeState)
    (id : String) (ent : Entity)
    (hinv : ∀ k, dmem st.mappings k = true → k ∈ st.processed) :
    ∀ k, dmem (secStep pg cP cS st id ent).mappings k = true →
      k ∈ id :: (secStep pg cP cS st id ent).processed := by
  intro k hk
  rcases secStep_mappings_dmem pg cP cS st id ent k hk with h | h
  · rw [secStep_processed]
    exact List.mem_cons_of_mem _ (hinv k h)
  · subst h
    exact List.mem_cons_self _ _

theorem processSecondaryEntities_entities_lookup (pg : Graph) (cP cS : MergeContext)
    (m₀ : String) :
    ∀ (l : List (String × Entity)) (st : MergeState),
    (∀ p ∈ l, Prod.fst p ≠ m₀ ∧
      findMatchingEntity pg cP cS (Prod.fst p) (Prod.snd p) ≠ some m₀) →
    dlookup (processSecondaryEntities pg cP cS l st).entities m₀ =
      dlookup st.entities m₀ := by
  intro l
  induction l with
  | nil => intro st _; rfl
  | cons hd tl ih =>
    intro st h
    obtain ⟨id, ent⟩ := hd
    simp only [processSecondaryEntities]
    by_cases hp : id ∈ st.processed
    · rw [if_pos hp]
      exact ih st (fun p hp' => h p (List.mem_cons_of_mem _ hp'))
    · rw [if_neg hp]
      rw [ih _ (fun p hp' => h p (List.mem_cons_of_mem _ hp'))]
      exact secStep_entities_lookup_ne pg cP cS st id ent m₀
        (h (id, ent) (List.mem_cons_self _ _)).1
        (h (id, ent) (List.mem_cons_self _ _)).2

theorem processSecondaryEntities_mappings_lookup (pg : Graph) (cP cS : MergeContext)
    (c : String) :
    ∀ (l : List (String × Entity)) (st : MergeState),
    (∀ p ∈ l, Prod.fst p ≠ c) →
    dlookup (processSecondaryEntities pg cP cS l st).mappings c =
      dlookup st.mappings c := by
  intro l
  induction l with
  | nil => intro st _; rfl
  | cons hd tl ih =>
    intro st h
    obtain ⟨id, ent⟩ := hd
    simp only [processSecondaryEntities]
    by_cases hp : id ∈ st.processed
    · rw [if_pos hp]
      exact ih st (fun p hp' => h p (List.mem_cons_of_mem _ hp'))
    · rw [if_neg hp]
      rw [ih _ (fun p hp' => h p (List.mem_cons_of_mem _ hp'))]
      exact secStep_mappings_lookup_ne pg cP cS st id ent c
        (h (id, ent) (List.mem_cons_self _ _))

theorem processSecondaryEntities_processed_subset (pg : Graph) (cP cS : MergeContext) :
    ∀ (l : List (String × Entity)) (st : MergeState) (x : String),
    x ∈ (processSecondaryEntities pg cP cS l st).processed →
      x ∈ dkeys l ∨ x ∈ st.processed := by
  intro l
  induction l with
  | nil => intro st x hx; exact Or.inr hx
  | cons hd tl ih =>
    intro st x hx
    obtain ⟨id, ent⟩ := hd
    simp only [processSecondaryEntities] at hx
    by_cases hp : id ∈ st.processed
    · rw [if_pos hp] at hx
      rcases ih st x hx with h | h
      · exact Or.inl (by simp [dkeys] at h ⊢; exact Or.inr h)
      · exact Or.inr h
    · rw [if_neg hp] at hx
      rcases ih _ x hx with h | h
      · exact Or.inl (by simp [dkeys] at h ⊢; exact Or.inr h)
      · have hpr := secStep_processed pg cP cS st id ent
        have h2 : x ∈ id :: st.processed := by
          rw [← hpr]
          exact h
        rcases List.mem_cons.mp h2 with h' | h'
        · exact Or.inl (by simp [dkeys, h'])
        · exact Or.inr h'

theorem processSecondaryEntities_mappings_processed (pg : Graph) (cP cS : MergeContext) :
    ∀ (l : List (String × Entity)) (st : MergeState),
    (∀ k, dmem st.mappings k = true → k ∈ st.processed) →
    ∀ k, dmem (processSecondaryEntities pg cP cS l st).mappings k = true →
      k ∈ (processSecondaryEntities pg cP cS l st).processed := by
  intro l
  induction l with
  | nil => intro st h k hk; exact h k hk
  | cons hd tl ih =>
    intro st h k hk
    obtain ⟨id, ent⟩ := hd
    simp only [processSecondaryEntities] at hk ⊢
    by_cases hp : id ∈ st.processed
    · rw [if_pos hp] at hk ⊢
      exact ih st h k hk
    · rw [if_neg hp] at hk ⊢
      exact ih _ (secStep_invariant pg cP cS st id ent h) k hk

theorem resolves_tail (pg : Graph) (cP cS : MergeContext)
    (tl : List (String × Entity)) (ST : MergeState) (id : String)
    (h1 : ∀ q ∈ tl, Prod.fst q ≠ id)
    (h2 : dmem ST.entities (mapId ST.mappings id) = true) :
    dmem (processSecondaryEntities pg cP cS tl ST).entities
      (mapId (processSecondaryEntities pg cP cS tl ST).mappings id) = true := by
  have hm := processSecondaryEntities_mappings_lookup pg cP cS id tl ST h1
  have heq : mapId (processSecondaryEntities pg cP cS tl ST).mappings id =
      mapId ST.mappings id := by
    unfold mapId
    rw [hm]
  rw [heq]
  exact processSecondaryEntities_dmem pg cP cS tl ST _ h2

theorem processSecondaryEntities_resolves (pg : Graph) (cP cS : MergeContext) :
    ∀ (l : List (String × Entity)) (st : MergeState),
    (dkeys l).Nodup →
    (∀ k, dmem st.mappings k = true → k ∈ st.processed) →
    ∀ p ∈ l, Prod.fst p ∉ st.processed →
    dmem (processSecondaryEntities pg cP cS l st).entities
      (mapId (processSecondaryEntities pg cP cS l st).mappings (Prod.fst p)) = true := by
  intro l
  induction l with
  | nil => intro st _ _ p hp _; exact absurd hp (List.not_mem_nil _)
  | cons hd tl ih =>
    intro st hnd hinv p hp hnp
    obtain ⟨id, ent⟩ := hd
    have hnd' : (id :: dkeys tl).Nodup := by simpa [dkeys] using hnd
    have hidtl : id ∉ dkeys tl := (List.nodup_cons.mp hnd').1
    rcases List.mem_cons.mp hp with heq | hptl
    · -- the head entry itself: run its step and track its mapping to the end
      have hpid : Prod.fst p = id := by rw [heq]
      rw [hpid]
      rw [hpid] at hnp
      simp only [processSecondaryEntities, if_neg hnp]
      have htlne : ∀ q ∈ tl, Prod.fst q ≠ id := by
        intro q hq hqe
        apply hidtl
        rw [← hqe]
        exact fst_mem_dkeys hq
      have hnmid : dlookup st.mappings id = none := by
        apply dlookup_eq_none_of_not_dmem
        cases hdm : dmem st.mappings id with
        | false => rfl
        | true => exact absurd (hinv id hdm) hnp
      cases hfm : findMatchingEntity pg cP cS id ent with
      | none =>
        rw [secStep_eq_add_of_none hfm]
        apply resolves_tail pg cP cS tl _ id htlne
        have hmi : mapId st.mappings id = id := by
          unfold mapId
          rw [hnmid]
          rfl
        simp only [hmi]
        simp [dmem_dinsert]
      | some mid =>
        cases hlk : dlookup st.entities mid with
        | none =>
          rw [secStep_eq_add_of_absent hfm hlk]
          apply resolves_tail pg cP cS tl _ id htlne
          have hmi : mapId st.mappings id = id := by
            unfold mapId
            rw [hnmid]
            rfl
          simp only [hmi]
          simp [dmem_dinsert]
        | some cur =>
          by_cases hmide : mid = ""
          · subst hmide
            rw [secStep_eq_add_of_empty hfm hlk]
            apply resolves_tail pg cP cS tl _ id htlne
            have hmi : mapId st.mappings id = id := by
              unfold mapId
              rw [hnmid]
              rfl
            simp only [hmi]
            simp [dmem_dinsert]
          · rw [secStep_eq_merge hfm hlk hmide]
            apply resolves_tail pg cP cS tl _ id htlne
            have hmi : mapId (dinsert st.mappings id mid) id = mid := by
              unfold mapId
              rw [dlookup_dinsert_self]
              rfl
            simp only [hmi]
            simp [dmem_dinsert]
    · -- the entry lives in the tail: induction after one step
      by_cases hpq : id ∈ st.processed
      · simp only [processSecondaryEntities, if_pos hpq]
        exact ih st (List.nodup_cons.mp hnd').2 hinv p hptl hnp
      · simp only [processSecondaryEntities, if_neg hpq]
        refine ih _ ?_ (secStep_invariant pg cP cS st id ent hinv) p hptl ?_
        · exact (List.nodup_cons.mp hnd').2
        · intro hmem
          have hpr := secStep_processed pg cP cS st id ent
          have h2 : Prod.fst p ∈ id :: st.processed := by
            rw [← hpr]
            exact hmem
          rcases List.mem_cons.mp h2 with h' | h'
          · apply hidtl
            rw [← h']
            exact fst_mem_dkeys hptl
          · exact hnp h'

theorem matched_fold_value (pg : Graph) (cP cS : MergeContext)
    (sid : String) (sEnt : Entity) (m₀ : String) (pEnt : Entity)
    (hfind : findMatchingEntity pg cP cS sid sEnt = some m₀) (hm₀ : m₀ ≠ "") :
    ∀ (l : List (String × Entity)) (st : MergeState),
    (dkeys l).Nodup →
    (sid, sEnt) ∈ l →
    (∀ p ∈ l, Prod.fst p ≠ m₀) →
    dlookup st.entities m₀ = some pEnt →
    (∀ p ∈ l, Prod.fst p ∉ st.processed) →
    (∀ p ∈ l, Prod.fst p ≠ sid →
      findMatchingEntity pg cP cS (Prod.fst p) (Prod.snd p) ≠ some m₀) →
    dlookup (processSecondaryEntities pg cP cS l st).entities m₀
        = some (mergeEntityProperties pEnt sEnt) ∧
    dlookup (processSecondaryEntities pg cP cS l st).mappings sid = some m₀ := by
  intro l
  induction l with
  | nil => intro st _ hmem _ _ _ _; exact absurd hmem (List.not_mem_nil _)
  | cons hd tl ih =>
    intro st hnd hmem hne hval hproc huniq
    obtain ⟨id, ent⟩ := hd
    have hnd' : (id :: dkeys tl).Nodup := by simpa [dkeys] using hnd
    have hidtl : id ∉ dkeys tl := (List.nodup_cons.mp hnd').1
    have hidnp : id ∉ st.processed := hproc (id, ent) (List.mem_cons_self _ _)
    rcases List.mem_cons.mp hmem with heq | htl
    · -- the head is the matching entry
      injection heq with h1 h2
      subst h1
      subst h2
      simp only [processSecondaryEntities, if_neg hidnp]
      rw [secStep_eq_merge hfind hval hm₀]
      have htlne : ∀ q ∈ tl, Prod.fst q ≠ sid := by
        intro q hq hqe
        apply hidtl
        rw [← hqe]
        exact fst_mem_dkeys hq
      constructor
      · rw [processSecondaryEntities_entities_lookup pg cP cS m₀ tl _ ?_]
        · exact dlookup_dinsert_self st.entities m₀ _
        · intro p hp
          exact ⟨hne p (List.mem_cons_of_mem _ hp),
            huniq p (List.mem_cons_of_mem _ hp) (htlne p hp)⟩
      · rw [processSecondaryEntities_mappings_lookup pg cP cS sid tl _ htlne]
        exact dlookup_dinsert_self st.mappings sid m₀
    · -- the matching entry is in the tail
      have hidsid : id ≠ sid := by
        intro h
        apply hidtl
        rw [h]
        exact fst_mem_dkeys htl
      simp only [processSecondaryEntities, if_neg hidnp]
      refine ih _ (List.nodup_cons.mp hnd').2 htl
        (fun p hp => hne p (List.mem_cons_of_mem _ hp)) ?_ ?_
        (fun p hp => huniq p (List.mem_cons_of_mem _ hp))
      · rw [secStep_entities_lookup_ne pg cP cS st id ent m₀
          (hne (id, ent) (List.mem_cons_self _ _))
          (huniq (id, ent) (List.mem_cons_self _ _) hidsid)]
        exact hval
      · intro p hp hmem'
        have hpr := secStep_processed pg cP cS st id ent
        have h2 : Prod.fst p ∈ id :: st.processed := by
          rw [← hpr]
          exact hmem'
        rcases List.mem_cons.mp h2 with h' | h'
        · apply hidtl
          rw [← h']
          exact fst_mem_dkeys hp
        · exact hproc p (List.mem_cons_of_mem _ hp) h'

/-- **C3 (amended).** In `dict_merger_optimized_v3.py`, for a matched
primary/secondary entity pair the merged entity's children are the duplicate-free
set union of the primary entity's children and the secondary entity's children
mapped through the final ID map — provided the two graphs' entity key sets are
disjoint, keys are duplicate-free, both entities' children refer to entities of
their own graph, and the matched secondary entity is the only one mapped onto
that primary id. Without these provisos the claim fails: the final reference
pass remaps *primary* children through the ID map as well (see the
counterexample), and an id shared between the graphs can make a secondary
entity silently overwrite the merge result. -/
theorem merge_matched_children_union
    (pg sg out : Graph) (idMap : List (String × String)) (ctxP ctxS : MergeContext)
    (sid : String) (sEnt : Entity) (m₀ : String) (pEnt : Entity)
    (hP : buildGraphContext pg (pg.entities.length + 1) = some ctxP)
    (hS : buildGraphContext sg (sg.entities.length + 1) = some ctxS)
    (hkp : (dkeys pg.entities).Nodup)
    (hks : (dkeys sg.entities).Nodup)
    (hdisj : ∀ p ∈ sg.entities, dmem pg.entities (Prod.fst p) = false)
    (hsid : (sid, sEnt) ∈ sg.entities)
    (hpent : dlookup pg.entities m₀ = some pEnt)
    (hm₀ : m₀ ≠ "")
    (hfind : findMatchingEntity pg ctxP ctxS sid sEnt = some m₀)
    (huniq : ∀ p ∈ sg.entities, Prod.fst p ≠ sid →
      findMatchingEntity pg ctxP ctxS (Prod.fst p) (Prod.snd p) ≠ some m₀)
    (hpc : ∀ c ∈ pEnt.children, dmem pg.entities c = true)
    (hsc : ∀ c ∈ sEnt.children, dmem sg.entities c = true)
    (hm : mergeGraphsCore pg sg = some (out, idMap)) :
    ∃ v, dlookup out.entities m₀ = some v ∧ v.children.Nodup ∧
      ∀ x, x ∈ v.children ↔
        (x ∈ pEnt.children ∨ ∃ c ∈ sEnt.children, x = mapId idMap c) := by
  simp only [mergeGraphsCore] at hm
  rw [hP, hS] at hm
  simp only [] at hm
  rcases hadd : addPrimaryTransitions
    (processSecondaryEntities pg ctxP ctxS sg.entities
      { entities := initMergedEntities pg, mappings := [], processed := [] }).mappings
    pg.transitions ([], []) with ⟨mt, tmap⟩
  rw [hadd] at hm
  cases hT : processSecondaryTransitions
    (processSecondaryEntities pg ctxP ctxS sg.entities
      { entities := initMergedEntities pg, mappings := [], processed := [] }).mappings
    (updateChildrenRefs
      (processSecondaryEntities pg ctxP ctxS sg.entities
        { entities := initMergedEntities pg, mappings := [], processed := [] }).mappings
      (processSecondaryEntities pg ctxP ctxS sg.entities
        { entities := initMergedEntities pg, mappings := [], processed := [] }).entities)
    sg.transitions mt tmap with
  | none => rw [hT] at hm; exact absurd hm (by simp)
  | some mt' =>
    rw [hT] at hm
    simp only [Option.some.injEq, Prod.mk.injEq] at hm
    obtain ⟨hout, hmapeq⟩ := hm
    subst hout
    subst hmapeq
    have hdm₀ : dmem pg.entities m₀ = true := by
      unfold dmem
      rw [hpent]
      rfl
    have hne : ∀ p ∈ sg.entities, Prod.fst p ≠ m₀ := by
      intro p hp he
      have := hdisj p hp
      rw [he] at this
      rw [this] at hdm₀
      exact absurd hdm₀ (by simp)
    have hval₀ : dlookup (initMergedEntities pg) m₀ = some pEnt := by
      rw [initMergedEntities_eq pg hkp]
      exact hpent
    have hinv₀ : ∀ k, dmem ([] : List (String × String)) k = true →
        k ∈ ([] : List String) := by
      intro k hk
      simp [dmem, dlookup] at hk
    obtain ⟨hvm₀, hvsid⟩ := matched_fold_value pg ctxP ctxS sid sEnt m₀ pEnt hfind hm₀
      sg.entities { entities := initMergedEntities pg, mappings := [], processed := [] }
      hks hsid hne hval₀ (fun p _ => List.not_mem_nil _) huniq
    -- every primary-side id is fixed by the final ID map and survives
    have hfix : ∀ c, dmem pg.entities c = true →
        mapId (processSecondaryEntities pg ctxP ctxS sg.entities
          { entities := initMergedEntities pg, mappings := [],
            processed := [] }).mappings c = c ∧
        dmem (processSecondaryEntities pg ctxP ctxS sg.entities
          { entities := initMergedEntities pg, mappings := [],
            processed := [] }).entities c = true := by
      intro c hc
      constructor
      · unfold mapId
        have hnone : dlookup (processSecondaryEntities pg ctxP ctxS sg.entities
            { entities := initMergedEntities pg, mappings := [],
              processed := [] }).mappings c = none := by
          apply dlookup_eq_none_of_not_dmem
          cases hdm : dmem (processSecondaryEntities pg ctxP ctxS sg.entities
              { entities := initMergedEntities pg, mappings := [],
                processed := [] }).mappings c with
          | false => rfl
          | true =>
            have hproc := processSecondaryEntities_mappings_processed pg ctxP ctxS
              sg.entities _ hinv₀ c hdm
            rcases processSecondaryEntities_processed_subset pg ctxP ctxS
                sg.entities _ c hproc with h | h
            · obtain ⟨q, hq, hqc⟩ := List.mem_map.mp h
              have := hdisj q hq
              rw [hqc] at this
              rw [this] at hc
              exact absurd hc (by simp)
            · exact absurd h (List.not_mem_nil _)
        rw [hnone]
        rfl
      · apply processSecondaryEntities_dmem
        rw [dmem_initMergedEntities]
        have hmem := (dmem_iff_mem_dkeys pg.entities c).mp hc
        simpa using hmem
    -- every secondary-side id resolves to a key of the merged entities
    have hres : ∀ c, dmem sg.entities c = true →
        dmem (processSecondaryEntities pg ctxP ctxS sg.entities
          { entities := initMergedEntities pg, mappings := [],
            processed := [] }).entities
          (mapId (processSecondaryEntities pg ctxP ctxS sg.entities
            { entities := initMergedEntities pg, mappings := [],
              processed := [] }).mappings c) = true := by
      intro c hc
      obtain ⟨q, hq, hqc⟩ := List.mem_map.mp ((dmem_iff_mem_dkeys sg.entities c).mp hc)
      rw [← hqc]
      exact processSecondaryEntities_resolves pg ctxP ctxS sg.entities _
        hks hinv₀ q hq (List.not_mem_nil _)
    refine ⟨childFix
      (processSecondaryEntities pg ctxP ctxS sg.entities
        { entities := initMergedEntities pg, mappings := [], processed := [] }).mappings
      (processSecondaryEntities pg ctxP ctxS sg.entities
        { entities := initMergedEntities pg, mappings := [], processed := [] }).entities
      (mergeEntityProperties pEnt sEnt), ?_, ?_, ?_⟩
    · show dlookup (updateChildrenRefs _ _) m₀ = _
      rw [updateChildrenRefs_eq_map, dlookup_map_val, hvm₀]
      rfl
    · exact List.nodup_dedup _
    · intro x
      simp only [childFix, mergeEntityProperties, List.mem_dedup, List.mem_filterMap,
        List.mem_append]
      constructor
      · rintro ⟨c, hc, hf⟩
        by_cases hd : dmem (processSecondaryEntities pg ctxP ctxS sg.entities
            { entities := initMergedEntities pg, mappings := [],
              processed := [] }).entities
            (mapId (processSecondaryEntities pg ctxP ctxS sg.entities
              { entities := initMergedEntities pg, mappings := [],
                processed := [] }).mappings c) = true
        · rw [if_pos hd] at hf
          have hx : x = mapId (processSecondaryEntities pg ctxP ctxS sg.entities
              { entities := initMergedEntities pg, mappings := [],
                processed := [] }).mappings c := by injection hf with hf'; exact hf'.symm
          rcases hc with hcp | hcs
          · left
            rw [hx, (hfix c (hpc c hcp)).1]
            exact hcp
          · right
            exact ⟨c, hcs, hx⟩
        · rw [if_neg hd] at hf
          exact absurd hf (by simp)
      · rintro (hxp | ⟨c, hcs, rfl⟩)
        · refine ⟨x, Or.inl hxp, ?_⟩
          rw [(hfix x (hpc x hxp)).1]
          rw [if_pos (hfix x (hpc x hxp)).2]
        · refine ⟨c, Or.inr hcs, ?_⟩
          rw [if_pos (hres c (hsc c hcs))]

/-- The primary `team1` entity of the spec scenario. -/
def c3PEnt : Entity :=
  { name := some "Frontend", children := ["emp1"], properties := some [("tech", "React")] }

/-- The secondary `team3` entity of the spec scenario. -/
def c3SEnt : Entity :=
  { name := some "Frontend", children := ["emp3"], properties := some [("tech", "Vue")] }

/-- The context built for the primary spec graph. -/
def c3CtxP : MergeContext :=
  (buildGraphContext specPrimary (specPrimary.entities.length + 1)).getD
    { entityPaths := [], pathToId := [] }

/-- The context built for the secondary spec graph. -/
def c3CtxS : MergeContext :=
  (buildGraphContext specSecondary (specSecondary.entities.length + 1)).getD
    { entityPaths := [], pathToId := [] }

/-- The merged graph and final ID map for the spec scenario. -/
def c3Res : Graph × List (String × String) :=
  (mergeGraphsCore specPrimary specSecondary).getD (emptyGraph, [])

theorem merge_matched_children_union_witness :
    ∃ v, dlookup (Prod.fst c3Res).entities "team1" = some v ∧ v.children.Nodup ∧
      ∀ x, x ∈ v.children ↔
        (x ∈ c3PEnt.children ∨ ∃ c ∈ c3SEnt.children, x = mapId (Prod.snd c3Res) c) :=
  merge_matched_children_union specPrimary specSecondary (Prod.fst c3Res)
    (Prod.snd c3Res) c3CtxP c3CtxS "team3" c3SEnt "team1" c3PEnt
    (by decide) (by decide) (by decide) (by decide) (by decide) (by decide)
    (by decide) (by decide) (by decide) (by decide) (by decide) (by decide)
    (by decide)

end Tools
